import Mathlib

/-!
# Verification of the puppeteer-render-server bulk-scrape orchestration

A shallow embedding of the repository's scraping logic:

* `transformJobUrl` — the URL canonicalizer of `src/local-bulk-scrape.js`
  (lines 138–155) and `src/server.js` (lines 76–97), together with an
  executable model of the pieces of the JavaScript runtime it uses
  (the WHATWG `URL` constructor and the three regular expressions).
* `scrapeLocation`, `stepUnit`, `runKeywords`, `runBulkScrape` — the
  per-unit scrape protocol and the batch orchestrator of
  `src/local-bulk-scrape.js` (lines 329–584), with the browser, the
  clock, `Math.random` and the ingestion service supplied as oracles.
* `p0RunKeywords` — the bulk-scrape loop of `src/unnamed/part_000`
  (lines 181–349), which adds a memory-budget guard.

Machine-dependent side effects (actual navigation, the DOM, file
writes, wall-clock time) are oracle inputs; the control flow, the
arithmetic on the totals, the error records and the order of events
are translated statement by statement from the source.
-/

namespace PuppeteerScraper

/-! ## Character-list literals used by the URL logic -/

/-- The list of characters of `"/jobs/view/"`. -/
def jvLit : List Char := ['/', 'j', 'o', 'b', 's', '/', 'v', 'i', 'e', 'w', '/']

/-- The list of characters of `"https://"`. -/
def httpsLit : List Char := ['h', 't', 't', 'p', 's', ':', '/', '/']

/-- The list of characters of `"http://"`. -/
def httpLit : List Char := ['h', 't', 't', 'p', ':', '/', '/']

/-! ## Model of the regular expressions of `transformJobUrl`

`transformJobUrl` uses the regexes
`/\/jobs\/view\/.*-(\d{10,12})(?:[?#]|$)/` (applied both to
`u.pathname` and to the raw string) and
`/^(https:\/\/[^\/]+)\/jobs\/view\//`.  We implement their
match-and-capture semantics directly: JavaScript `String.match`
returns the leftmost match, with the greedy `.*` giving the capture
group the digits after the *last* hyphen that is followed by a
10–12 digit run and then `?`, `#` or the end of the string. -/

/-- Does the `(?:[?#]|$)` terminator match at the start of `l`? -/
def termOk : List Char → Bool
  | [] => true
  | c :: _ => c = '?' || c = '#'

/-- Try to match `-(\d{10,12})(?:[?#]|$)` at the head of the list,
returning the captured digit group.  A hyphen must be followed by a
maximal digit run of length 10–12 and then a terminator: a shorter
match of `\d{10,12}` would be followed by a digit, which is not a
terminator, so the group is exactly the maximal run. -/
def matchHyphenId : List Char → Option (List Char)
  | [] => none
  | c :: rest =>
    if c = '-' then
      let d := rest.takeWhile Char.isDigit
      if 10 ≤ d.length ∧ d.length ≤ 12 ∧ termOk (rest.dropWhile Char.isDigit) then
        some d
      else none
    else none

/-- The capture of `-(\d{10,12})(?:[?#]|$)` at the *rightmost*
position of `l` where it matches (the greedy `.*` of the regex
backtracks from the right). -/
def lastHyphenMatch : List Char → Option (List Char)
  | [] => none
  | c :: rest =>
    match lastHyphenMatch rest with
    | some d => some d
    | none => matchHyphenId (c :: rest)

/-- The remainder of `s` after the first occurrence of
`"/jobs/view/"`, or `none` if it does not occur. -/
def jobsViewTail : List Char → Option (List Char)
  | [] => none
  | c :: rest =>
    if jvLit.isPrefixOf (c :: rest) then some ((c :: rest).drop jvLit.length)
    else jobsViewTail rest

/-- Model of `s.match(/\/jobs\/view\/.*-(\d{10,12})(?:[?#]|$)/)`:
the captured group, when the regex matches. -/
def matchJobsViewId (s : List Char) : Option (List Char) :=
  (jobsViewTail s).bind lastHyphenMatch

/-- Model of `s.match(/^(https:\/\/[^\/]+)\/jobs\/view\//)`: the
captured group `https://` + host-like part, when the anchored regex
matches.  Greedy `[^\/]+` runs to the first `/`, which must begin
`"/jobs/view/"`. -/
def rootMatchFn (s : List Char) : Option (List Char) :=
  if httpsLit.isPrefixOf s then
    let rest := s.drop httpsLit.length
    let h := rest.takeWhile (fun c => ¬(c = '/'))
    let after := rest.dropWhile (fun c => ¬(c = '/'))
    if h ≠ [] ∧ jvLit.isPrefixOf after then some (httpsLit ++ h) else none
  else none

/-! ## Model of the WHATWG `URL` constructor

`transformJobUrl` consumes only `u.origin` and `u.pathname`.  We model
`new URL(s)` restricted to already-normalized absolute `http(s)`
URLs of the form `scheme://host[/path][?query][#fragment]` (the only
shape the scraper ever feeds it); all other inputs are modelled as a
parse failure, which the source catches. -/

/-- A character that may still belong to the host part. -/
def wfHostChar (c : Char) : Bool := ¬(c = '/' ∨ c = '?' ∨ c = '#')

/-- The `origin` and `pathname` of a parsed URL. -/
structure URLParts where
  origin : List Char
  pathname : List Char
  deriving DecidableEq

/-- The `pathname` determined by everything after the host: a path up
to the query/fragment, or `"/"` when the path is absent. -/
def pathnameOf (after : List Char) : List Char :=
  if after.head? = some '/' then after.takeWhile (fun c => ¬(c = '?' ∨ c = '#'))
  else ['/']

/-- Split scheme-stripped input into host and pathname. -/
def parseAfterScheme (scheme rest : List Char) : Option URLParts :=
  let host := rest.takeWhile wfHostChar
  let after := rest.dropWhile wfHostChar
  if host = [] then none
  else some ⟨scheme ++ host, pathnameOf after⟩

/-- Model of `new URL(s)` (restricted as described above). -/
def parseURL (s : List Char) : Option URLParts :=
  if httpsLit.isPrefixOf s then parseAfterScheme httpsLit (s.drop httpsLit.length)
  else if httpLit.isPrefixOf s then parseAfterScheme httpLit (s.drop httpLit.length)
  else none

/-! ## `transformJobUrl` (src/local-bulk-scrape.js 138–155, src/server.js 76–97) -/

/-- List-level body of `transformJobUrl`. -/
def transformJobUrlL (s : List Char) : List Char :=
  if s = [] then []
  else
    match parseURL s with
    | none => s
    | some u =>
      match matchJobsViewId u.pathname with
      | some d => u.origin ++ jvLit ++ d
      | none =>
        match rootMatchFn s, matchJobsViewId s with
        | some root, some d => root ++ jvLit ++ d
        | _, _ => s

/-- `transformJobUrl(jobUrl)` on string inputs. -/
def transformJobUrl (s : String) : String :=
  String.mk (transformJobUrlL s.toList)

/-- `transformJobUrl` as called on an arbitrary JavaScript value that
is a string or `null`/`undefined` (modelled by `none`): the function
body's first line, `if (!jobUrl) return ''`, maps every falsy
argument to the empty string. -/
def transformJobUrlJS : Option String → String
  | none => ""
  | some s => transformJobUrl s

/-! ## Data model of the bulk scraper (src/local-bulk-scrape.js)

The browser, the pages it renders, the wall clock, `Math.random` and
the ingestion service are external collaborators; each is an oracle
field of `UnitEnv` / `RunEnv` below.  Everything else — the order of
checks, waits and screenshots inside `scrapeLocation`, the error
records, the recovery condition and the totals of `runBulkScrape` —
is translated from the source. -/

/-- A raw record as returned by `extractJobs` (`page.evaluate`). -/
structure RawJob where
  job_id : String
  job_title : String
  company : String
  location : String
  url : String
  img_url : String
  posting_date : String
  posting_time_relative : String
  deriving DecidableEq

/-- The `scrape_metadata` stamp attached to each job. -/
structure ScrapeMeta where
  keyword : String
  location : String
  geoId : Int
  timeFilter : String
  scraped_at : String
  deriving DecidableEq

/-- A job together with its `scrape_metadata`. -/
structure StampedJob where
  job : RawJob
  scrape_metadata : ScrapeMeta
  deriving DecidableEq

/-- `SCRAPER_CONFIG.timeFilter` of src/local-bulk-scrape.js. -/
def timeFilterConfig : String := "r7200"

/-- `buildLinkedInUrl(keyword, geoId)`: the search URL for a unit.
(`URLSearchParams` percent-encoding of the keyword is not modelled;
no property below depends on the URL's spelling.) -/
def buildLinkedInUrl (keyword : String) (geoId : Int) : String :=
  "https://www.linkedin.com/jobs/search/?keywords=" ++ keyword ++
    "&f_TPR=" ++ timeFilterConfig ++ "&geoId=" ++ toString geoId

/-- The metadata-attachment step of `scrapeLocation`
(src/local-bulk-scrape.js 422–432): `jobs.map(job => ({...job,
scrape_metadata: {..., scraped_at: new Date().toISOString()}}))`.
`new Date()` is called inside the `map` callback, once per record;
`clock j` is the ISO string returned by the `j`-th of those calls. -/
def addMetadata (clock : Nat → String) (keyword locationName : String)
    (geoId : Int) (jobs : List RawJob) : List StampedJob :=
  jobs.mapIdx (fun j job =>
    ⟨job, ⟨keyword, locationName, geoId, timeFilterConfig, clock j⟩⟩)

/-- Bool substring test (`String.prototype.includes`). -/
def containsSub (pat : List Char) : List Char → Bool
  | [] => pat.isEmpty
  | c :: rest => pat.isPrefixOf (c :: rest) || containsSub pat rest

/-- Model of `/Target closed|detached Frame/i.test(m)`:
case-insensitive substring search. -/
def testTargetClosed (m : String) : Bool :=
  containsSub "target closed".toList (m.toList.map Char.toLower) ||
    containsSub "detached frame".toList (m.toList.map Char.toLower)

/-- Events observable in a run: unit attempts, screenshot attempts
(`captureAndStore`, with the tag of `formatScreenshotName` and
whether the screenshot succeeded), in-unit waits, the inter-unit
delay, and browser-recovery attempts.  Durations are in
milliseconds, rational because `Math.random()` is. -/
inductive OEvent
  | attempt (keyword locationName : String)
  | screenshot (tag : String) (ok : Bool)
  | waitEv (ms : ℚ)
  | delay (ms : ℚ)
  | recoverAttempt
  | recoverSuccess
  | recoverFailed
  deriving DecidableEq

/-- The world one call of `scrapeLocation` interacts with: results of
the liveness checks, of `page.goto` and `waitForSelector` (`some msg`
is a raised error), the DOM counts and contents, screenshot
outcomes, and the readings of the unit's `new Date()` calls. -/
structure UnitEnv where
  /-- `browser.isConnected()` at entry. -/
  connected0 : Bool
  /-- Outcome of `page.goto` (`some m`: it threw with message `m`). -/
  gotoErr : Option String
  /-- Success of the IMMEDIATE screenshot. -/
  shotImmediateOk : Bool
  /-- `page.isClosed()` after the post-navigation wait. -/
  pageClosedAfterNav : Bool
  /-- `browser.isConnected()` after the post-navigation wait. -/
  connectedAfterNav : Bool
  /-- `page.url()` after navigation. -/
  currentUrl : String
  /-- Success of the `initial` screenshot. -/
  shotInitialOk : Bool
  /-- Whether the sign-in modal appeared (and was dismissed). -/
  modalShown : Bool
  /-- Outcome of `waitForSelector` on the job-list container. -/
  jobListErr : Option String
  /-- `document.querySelectorAll(jobCard).length`. -/
  jobCardCount : Nat
  /-- Success of the `no-results` screenshot. -/
  shotNoResultsOk : Bool
  /-- Success of the `pre-scrape` screenshot. -/
  shotPreScrapeOk : Bool
  /-- The records returned by `extractJobs`. -/
  extracted : List RawJob
  /-- Readings of successive `new Date().toISOString()` calls during
  metadata attachment. -/
  clock : Nat → String
  /-- `page.isClosed()` as re-checked inside the catch block. -/
  pageClosedAtCatch : Bool
  /-- `browser.isConnected()` as re-checked inside the catch block. -/
  connectedAtCatch : Bool
  /-- Success of the `ERROR` screenshot taken in the catch block. -/
  shotErrorOk : Bool

/-- The object thrown by `scrapeLocation`'s catch block:
`{error, url, duration, pageState, browserState}` (the duration, a
wall-clock difference, is not modelled). -/
structure ScrapeErr where
  message : String
  url : String
  pageState : String
  browserState : String
  deriving DecidableEq

/-- Prefix a list of already-performed events onto a
`scrapeLocation` outcome. -/
def prependEvents (evs : List OEvent)
    (r : List OEvent × Except ScrapeErr (List StampedJob)) :
    List OEvent × Except ScrapeErr (List StampedJob) :=
  (evs ++ r.1, r.2)

/-- The catch block of `scrapeLocation` (src/local-bulk-scrape.js
435–463): re-check page/browser state, take a best-effort `ERROR`
screenshot when both are alive, re-throw a structured error. -/
def scrapeFail (e : UnitEnv) (msg url : String) :
    List OEvent × Except ScrapeErr (List StampedJob) :=
  let pageState := if e.pageClosedAtCatch then "closed" else "open"
  let browserState := if e.connectedAtCatch then "connected" else "disconnected"
  let evs : List OEvent :=
    if ¬ e.pageClosedAtCatch ∧ e.connectedAtCatch then
      [.screenshot "ERROR" e.shotErrorOk]
    else []
  (evs, .error ⟨msg, url, pageState, browserState⟩)

/-- `scrapeLocation` (src/local-bulk-scrape.js 329–464): the events
it performs, and either the stamped records or the structured error
it throws.  The sequencing of checks, screenshots and waits follows
the source line by line; the wait durations are the fixed
`SCRAPER_CONFIG.delays` values. -/
def scrapeLocation (e : UnitEnv) (keyword locationName : String) (geoId : Int) :
    List OEvent × Except ScrapeErr (List StampedJob) :=
  if ¬ e.connected0 then scrapeFail e "Browser disconnected" ""
  else
    let url := buildLinkedInUrl keyword geoId
    match e.gotoErr with
    | some m => scrapeFail e m url
    | none =>
      let ev1 : List OEvent :=
        [.screenshot "IMMEDIATE" e.shotImmediateOk, .waitEv 2000]
      if e.pageClosedAfterNav then
        prependEvents ev1 (scrapeFail e "Page closed during stability wait" url)
      else if ¬ e.connectedAfterNav then
        prependEvents ev1 (scrapeFail e "Browser disconnected during navigation" url)
      else if ¬ containsSub "linkedin.com/jobs/search".toList e.currentUrl.toList then
        prependEvents ev1
          (scrapeFail e ("Redirected away from jobs page to: " ++ e.currentUrl) url)
      else
        let ev2 := ev1 ++ [.screenshot "initial" e.shotInitialOk] ++
          (if e.modalShown then [.waitEv 1000] else [])
        match e.jobListErr with
        | some m => prependEvents ev2 (scrapeFail e m url)
        | none =>
          let ev3 := ev2 ++ [.waitEv 3000]
          if e.jobCardCount = 0 then
            prependEvents
              (ev3 ++ [.screenshot "no-results" e.shotNoResultsOk, .waitEv 3000])
              (scrapeFail e "No job listings found on page" url)
          else
            let jobs := e.extracted.map (fun j =>
              if j.url ≠ "" then {j with url := transformJobUrl j.url} else j)
            (ev3 ++ [.screenshot "pre-scrape" e.shotPreScrapeOk],
              .ok (addMetadata e.clock keyword locationName geoId jobs))

/-! ## The batch orchestrator (src/local-bulk-scrape.js 486–584) -/

/-- An entry of the run's `errors` array.  Scrape errors carry
`error`, `url`, `timestamp`, `duration`; ingest errors carry
`type: 'ingest'` and `error`.  Timestamps and durations are
wall-clock strings with no bearing on any property and are not
modelled. -/
structure ErrRec where
  keyword : String
  location : String
  /-- The `type` field: `some "ingest"` for ingestion failures,
  absent (`none`) for scrape errors. -/
  etype : Option String
  /-- The `error` field (the message). -/
  message : String
  /-- The `url` field of scrape errors (`'not generated'` fallback). -/
  url : Option String
  deriving DecidableEq

/-- The orchestrator's mutable run state: the two totals, the
`errors` and `screenshots` arrays, and the (ghost) trace of events. -/
structure OrchState where
  totalScraped : Nat
  totalInserted : Nat
  errors : List ErrRec
  screenshots : List String
  trace : List OEvent

/-- The initial run state. -/
def initState : OrchState := ⟨0, 0, [], [], []⟩

/-- `randomBetween(min, max) = min + Math.random() * (max - min)`
(src/local-bulk-scrape.js 106–108), with `r` the value returned by
`Math.random()`. -/
def randomBetween (lo hi r : ℚ) : ℚ := lo + r * (hi - lo)

/-- The world the whole run interacts with, indexed by the inner-loop
iteration counter `i`. -/
structure RunEnv where
  /-- Whether the initial `launchBrowser` succeeds. -/
  launchOk : Bool
  /-- The launch error's message when it fails. -/
  launchMsg : String
  /-- The browser/page world seen by unit `i`'s `scrapeLocation`. -/
  unitEnv : Nat → UnitEnv
  /-- `browser.isConnected()` at the top of iteration `i` (line 516). -/
  connectedPre : Nat → Bool
  /-- Whether the pre-iteration `recoverBrowser` call succeeds. -/
  recoverPreOk : Nat → Bool
  /-- The relaunch error's message when the pre-iteration recovery fails. -/
  recoverPreMsg : Nat → String
  /-- Whether the post-error `recoverBrowser` call succeeds. -/
  recoverPostOk : Nat → Bool
  /-- `sendBulkJobsToSupabase` for unit `i`: `.ok n` is a response
  with `inserted: n` (after the source's `|| 0` coalescing), `.error
  m` a raised ingestion error. -/
  ingest : Nat → List StampedJob → Except String Nat
  /-- `Math.random()` as drawn for unit `i`'s inter-unit delay. -/
  random : Nat → ℚ

/-- Append an error record. -/
def pushError (st : OrchState) (r : ErrRec) : OrchState :=
  {st with errors := st.errors ++ [r]}

/-- Append trace events. -/
def pushEvents (st : OrchState) (evs : List OEvent) : OrchState :=
  {st with trace := st.trace ++ evs}

/-- The filenames pushed onto the shared `screenshots` array by the
events of one unit (`captureAndStore` pushes only on success). -/
def shotNames (evs : List OEvent) : List String :=
  evs.filterMap (fun ev =>
    match ev with
    | .screenshot tag true => some tag
    | _ => none)

/-- The recovery condition of the orchestrator's catch block (line
546): `scrapeError.browserState === 'disconnected' ||
/Target closed|detached Frame/i.test(errorMessage)`.  `browserState`
is `none` when the caught value is a plain `Error` (it has no such
property). -/
def recoveryIndicated (browserState : Option String) (message : String) : Bool :=
  browserState == some "disconnected" || testTargetClosed message

/-- The orchestrator's catch block (src/local-bulk-scrape.js
535–554): push an error record, and when the failure indicates a
disconnected browser or a terminated process, attempt
`recoverBrowser`, itself guarded by a try/catch that only logs. -/
def handleCaught (env : RunEnv) (i : Nat) (keyword locationName : String)
    (message : String) (urlField : Option String) (browserState : Option String)
    (st : OrchState) : OrchState :=
  let urlRecorded :=
    match urlField with
    | some u => if u = "" then "not generated" else u
    | none => "not generated"
  let st := pushError st ⟨keyword, locationName, none, message, some urlRecorded⟩
  if recoveryIndicated browserState message then
    let st := pushEvents st [.recoverAttempt]
    if env.recoverPostOk i then pushEvents st [.recoverSuccess]
    else pushEvents st [.recoverFailed]
  else st

/-- The body of one iteration from `scrapeLocation` onwards
(src/local-bulk-scrape.js 521–554): on success accumulate
`totalScraped`, ingest a non-empty batch and accumulate
`totalInserted` (ingestion failures are isolated into an error
record); on a raised error run the catch block. -/
def scrapePhase (env : RunEnv) (keyword locationName : String) (geoId : Int)
    (i : Nat) (st : OrchState) : OrchState :=
  let r := scrapeLocation (env.unitEnv i) keyword locationName geoId
  let st := pushEvents st r.1
  let st := {st with screenshots := st.screenshots ++ shotNames r.1}
  match r.2 with
  | .ok jobs =>
    let st := {st with totalScraped := st.totalScraped + jobs.length}
    if 0 < jobs.length then
      match env.ingest i jobs with
      | .ok n => {st with totalInserted := st.totalInserted + n}
      | .error m => pushError st ⟨keyword, locationName, some "ingest", m, none⟩
    else st
  | .error serr =>
    handleCaught env i keyword locationName serr.message (some serr.url)
      (some serr.browserState) st

/-- One full inner-loop iteration (src/local-bulk-scrape.js
514–562): the pre-iteration connectivity check with its relaunch
(whose failure is caught by the same per-unit catch block), the
scrape-and-ingest phase, and the unconditional inter-unit delay
drawn by `randomBetween` from `delays.betweenLocations`. -/
def stepUnit (env : RunEnv) (keyword locationName : String) (geoId : Int)
    (i : Nat) (st : OrchState) : OrchState :=
  let st := pushEvents st [.attempt keyword locationName]
  let st :=
    if env.connectedPre i then scrapePhase env keyword locationName geoId i st
    else
      let st := pushEvents st [.recoverAttempt]
      if env.recoverPreOk i then
        scrapePhase env keyword locationName geoId i (pushEvents st [.recoverSuccess])
      else
        handleCaught env i keyword locationName (env.recoverPreMsg i) none none
          (pushEvents st [.recoverFailed])
  pushEvents st [.delay (randomBetween 2000 5000 (env.random i))]

/-- The inner loop over `Object.entries(locationMap)`, threading the
iteration counter. -/
def runLocations (env : RunEnv) (keyword : String) :
    List (String × Int) → Nat → OrchState → OrchState × Nat
  | [], i, st => (st, i)
  | (locationName, geoId) :: rest, i, st =>
    runLocations env keyword rest (i + 1)
      (stepUnit env keyword locationName geoId i st)

/-- The outer loop over `keywordList`. -/
def runKeywords (env : RunEnv) :
    List String → List (String × Int) → Nat → OrchState → OrchState × Nat
  | [], _, i, st => (st, i)
  | keyword :: ks, locs, i, st =>
    let p := runLocations env keyword locs i st
    runKeywords env ks locs p.2 p.1

/-- The run state produced by the two nested loops from the initial
state. -/
def runScrapeState (env : RunEnv) (keywordList : List String)
    (locationMap : List (String × Int)) : OrchState :=
  (runKeywords env keywordList locationMap 0 initState).1

/-- The result object of `runBulkScrape` (src/local-bulk-scrape.js
576–583; the constant fields `success` and `screenshot_dir` are
omitted). -/
structure RunSummary where
  total_scraped : Nat
  inserted : Nat
  errors : List ErrRec
  screenshots : List String

/-- `runBulkScrape({keywords, locations})` on normalized inputs
(src/local-bulk-scrape.js 486–584): validate non-emptiness, launch
(a launch failure propagates out of the function), run the nested
loops, return the summary. -/
def runBulkScrape (env : RunEnv) (keywordList : List String)
    (locationMap : List (String × Int)) : Except String RunSummary :=
  if keywordList = [] then .error "keywords must contain at least one entry"
  else if locationMap = [] then .error "locations must contain at least one entry"
  else if ¬ env.launchOk then .error env.launchMsg
  else
    let st := runScrapeState env keywordList locationMap
    .ok ⟨st.totalScraped, st.totalInserted, st.errors, st.screenshots⟩

/-! ## The bulk-scrape loop of src/unnamed/part_000 (lines 181–349)

This variant adds a memory-budget guard at the top of each inner
iteration: `if (currentMem > 450) { ...; break; }`.  Its unit body
has no recovery logic; a scrape failure is pushed to `errors`,
ingestion failures are pushed (truncated to 200 characters, with the
array capped at 50 entries), the post-unit 5-second delay sits
*inside* the `try` (success path only). -/

/-- Trace events of the part_000 loop. -/
inductive P0Event
  | attempt (keyword locationName : String)
  | budgetStop (sampledMem : Nat)
  | delay (ms : ℚ)
  deriving DecidableEq

/-- Run state of the part_000 loop. -/
structure P0State where
  totalScraped : Nat
  totalInserted : Nat
  errors : List ErrRec
  trace : List P0Event

/-- Initial part_000 run state. -/
def p0Init : P0State := ⟨0, 0, [], []⟩

/-- The world of the part_000 loop, indexed by the inner-loop
iteration counter: the memory sample of the pre-unit check
(`Math.round(process.memoryUsage().heapUsed / 1024 / 1024)`), the
outcome of the navigate-dismiss-extract sequence, the per-unit
`new Date()` readings and the ingestion responses. -/
structure P0Env where
  memSample : Nat → Nat
  scrape : Nat → Except String (List RawJob)
  clock : Nat → Nat → String
  ingest : Nat → List StampedJob → Except String Nat

/-- `error.message.substring(0, 200)` (length cap on ingest error
messages, part_000 line 321). -/
def truncate200 (m : String) : String := String.mk (m.toList.take 200)

/-- Push an ingest error, then `if (errors.length > 50) errors.shift()`
(part_000 lines 317–327). -/
def p0PushIngestError (st : P0State) (r : ErrRec) : P0State :=
  let errs := st.errors ++ [r]
  {st with errors := if 50 < errs.length then errs.tail else errs}

/-- The unit body of the part_000 loop (lines 189–341), entered after
the memory guard passed: scrape, transform URLs, stamp metadata,
accumulate `totalScraped`, ingest non-empty batches, accumulate
`totalInserted`, delay 5 s on success; on a raised error just record
it. -/
def p0StepUnit (env : P0Env) (keyword locationName : String) (geoId : Int)
    (i : Nat) (st : P0State) : P0State :=
  let st := {st with trace := st.trace ++ [P0Event.attempt keyword locationName]}
  match env.scrape i with
  | .ok extracted =>
    let jobs := extracted.map (fun j =>
      if j.url ≠ "" then {j with url := transformJobUrl j.url} else j)
    let stamped := addMetadata (env.clock i) keyword locationName geoId jobs
    let st := {st with totalScraped := st.totalScraped + stamped.length}
    let st :=
      if 0 < stamped.length then
        match env.ingest i stamped with
        | .ok n => {st with totalInserted := st.totalInserted + n}
        | .error m =>
          p0PushIngestError st
            ⟨keyword, locationName, some "ingest", truncate200 m, none⟩
      else st
    {st with trace := st.trace ++ [P0Event.delay 5000]}
  | .error m =>
    {st with errors := st.errors ++ [(⟨keyword, locationName, none, m, none⟩ : ErrRec)]}

/-- The inner location loop of part_000 with the memory guard
(lines 182–188): a sample above 450 MB executes `break`, which
leaves the *location* loop only. -/
def p0RunLocations (env : P0Env) (keyword : String) :
    List (String × Int) → Nat → P0State → P0State × Nat
  | [], i, st => (st, i)
  | (locationName, geoId) :: rest, i, st =>
    if 450 < env.memSample i then
      ({st with trace := st.trace ++ [P0Event.budgetStop (env.memSample i)]}, i + 1)
    else
      p0RunLocations env keyword rest (i + 1)
        (p0StepUnit env keyword locationName geoId i st)

/-- The outer keyword loop of part_000 (line 181): after an inner
`break`, iteration resumes with the next keyword. -/
def p0RunKeywords (env : P0Env) :
    List String → List (String × Int) → Nat → P0State → P0State × Nat
  | [], _, i, st => (st, i)
  | keyword :: ks, locs, i, st =>
    let p := p0RunLocations env keyword locs i st
    p0RunKeywords env ks locs p.2 p.1

/-- The part_000 run state from the initial state. -/
def p0RunState (env : P0Env) (keywords : List String)
    (locations : List (String × Int)) : P0State :=
  (p0RunKeywords env keywords locations 0 p0Init).1

/-! ## Predicates taken from the specification's wording

These two definitions follow the words of the specification (not the
source); they are used to compare a claim as stated against the
code's behaviour. -/

/-- A path segment ends here: end of the path or a `/`. -/
def segmentEnd : List Char → Bool
  | [] => true
  | c :: _ => c = '/'

/-- Specification wording for claim C3: the path "contains a 10–12
digit numeric id segment preceded by a hyphen" — somewhere in the
path there is a hyphen followed by a maximal run of 10–12 digits
that ends its path segment. -/
def hasHyphenIdSegment : List Char → Bool
  | [] => false
  | c :: rest =>
    (c = '-' &&
      (let d := rest.takeWhile Char.isDigit
       (10 ≤ d.length && d.length ≤ 12) &&
         segmentEnd (rest.dropWhile Char.isDigit))) ||
    hasHyphenIdSegment rest

/-! ## Trace observations

Ghost observations of a run's trace, used to state the ordering,
throttling and recovery properties. -/

/-- The units attempted, in order. -/
def attemptsOf (tr : List OEvent) : List (String × String) :=
  tr.filterMap (fun ev =>
    match ev with
    | .attempt k ln => some (k, ln)
    | _ => none)

/-- The inter-unit delays, in order. -/
def delaysOf (tr : List OEvent) : List ℚ :=
  tr.filterMap (fun ev =>
    match ev with
    | .delay ms => some ms
    | _ => none)

/-- The number of browser-recovery attempts. -/
def recoverAttemptsOf (tr : List OEvent) : Nat :=
  (tr.filterMap (fun ev =>
    match ev with
    | .recoverAttempt => some ()
    | _ => none)).length

/-- The trace events the orchestrator's catch block appends. -/
def caughtEvents (env : RunEnv) (i : Nat) (message : String)
    (browserState : Option String) : List OEvent :=
  if recoveryIndicated browserState message then
    OEvent.recoverAttempt ::
      (if env.recoverPostOk i then [OEvent.recoverSuccess]
       else [OEvent.recoverFailed])
  else []

/-- The trace events the scrape-and-ingest phase appends. -/
def phaseEvents (env : RunEnv) (keyword locationName : String) (geoId : Int)
    (i : Nat) : List OEvent :=
  let r := scrapeLocation (env.unitEnv i) keyword locationName geoId
  r.1 ++
    (match r.2 with
     | .ok _ => []
     | .error serr => caughtEvents env i serr.message (some serr.browserState))

/-- All trace events appended by one iteration of the inner loop:
the attempt marker, the pre-check/recovery events, the unit's own
events, the catch-block events, and the closing inter-unit delay. -/
def unitEvents (env : RunEnv) (keyword locationName : String) (geoId : Int)
    (i : Nat) : List OEvent :=
  OEvent.attempt keyword locationName ::
    ((if env.connectedPre i then phaseEvents env keyword locationName geoId i
      else
        OEvent.recoverAttempt ::
          (if env.recoverPreOk i then
            OEvent.recoverSuccess :: phaseEvents env keyword locationName geoId i
          else
            OEvent.recoverFailed ::
              caughtEvents env i (env.recoverPreMsg i) none)) ++
      [OEvent.delay (randomBetween 2000 5000 (env.random i))])

/-! ## Concrete worlds used to instantiate the theorems -/

/-- A healthy unit world whose page shows zero job cards. -/
def sampleUnitEnv : UnitEnv where
  connected0 := true
  gotoErr := none
  shotImmediateOk := true
  pageClosedAfterNav := false
  connectedAfterNav := true
  currentUrl := "https://www.linkedin.com/jobs/search/?keywords=X"
  shotInitialOk := true
  modalShown := false
  jobListErr := none
  jobCardCount := 0
  shotNoResultsOk := true
  shotPreScrapeOk := true
  extracted := []
  clock := fun _ => "2024-01-01T00:00:00.000Z"
  pageClosedAtCatch := false
  connectedAtCatch := true
  shotErrorOk := true

/-- A clock whose reading advances after its first call. -/
def tickingClock : Nat → String :=
  fun i => if i = 0 then "2024-01-01T00:00:00.000Z" else "2024-01-01T00:00:00.001Z"

/-- A raw job with the given id and an empty URL. -/
def sampleJob (idv : String) : RawJob :=
  ⟨idv, "title", "co", "loc", "", "", "", ""⟩

/-- A unit world with two job cards, two extracted jobs and a ticking
clock. -/
def twoJobUnitEnv : UnitEnv :=
  { sampleUnitEnv with
    jobCardCount := 2
    extracted := [sampleJob "1", sampleJob "2"]
    clock := tickingClock }

/-- A unit world whose browser is disconnected. -/
def discUnitEnv : UnitEnv :=
  { sampleUnitEnv with connected0 := false, connectedAtCatch := false }

/-- A concrete run world built over `sampleUnitEnv`. -/
def sampleRunEnv : RunEnv where
  launchOk := true
  launchMsg := ""
  unitEnv := fun _ => sampleUnitEnv
  connectedPre := fun _ => true
  recoverPreOk := fun _ => true
  recoverPreMsg := fun _ => ""
  recoverPostOk := fun _ => true
  ingest := fun _ _ => .ok 0
  random := fun _ => 0

/-- A run world whose units fail with a disconnected browser. -/
def discRunEnv : RunEnv :=
  { sampleRunEnv with unitEnv := fun _ => discUnitEnv }

/-- A part_000 world whose first memory sample exceeds the 450 MB
ceiling while later samples are back under it. -/
def p0SpikeEnv : P0Env where
  memSample := fun i => if i = 0 then 500 else 100
  scrape := fun _ => .ok []
  clock := fun _ _ => "2024-01-01T00:00:00.000Z"
  ingest := fun _ _ => .ok 0

/-! # Theorems -/

/-! ## Generic list helpers -/

/-- Rebuilding a string from its characters is the identity. -/
theorem string_mk_toList (s : String) : String.mk s.toList = s := rfl

/-- `takeWhile` walks through a block whose elements all satisfy `p`. -/
theorem takeWhile_append_of_all {p : Char → Bool} {l t : List Char}
    (h : ∀ a ∈ l, p a = true) :
    (l ++ t).takeWhile p = l ++ t.takeWhile p := by
  induction l with
  | nil => simp
  | cons c l ih =>
    rw [List.cons_append, List.takeWhile_cons, if_pos (h c (by simp)),
      ih (fun a ha => h a (by simp [ha])), List.cons_append]

/-- `dropWhile` walks through a block whose elements all satisfy `p`. -/
theorem dropWhile_append_of_all {p : Char → Bool} {l t : List Char}
    (h : ∀ a ∈ l, p a = true) :
    (l ++ t).dropWhile p = t.dropWhile p := by
  induction l with
  | nil => simp
  | cons c l ih =>
    rw [List.cons_append, List.dropWhile_cons, if_pos (h c (by simp))]
    exact ih (fun a ha => h a (by simp [ha]))

/-- `takeWhile` keeps a list all of whose elements satisfy `p`. -/
theorem takeWhile_eq_self_of_all {p : Char → Bool} {l : List Char}
    (h : ∀ a ∈ l, p a = true) : l.takeWhile p = l := by
  have := takeWhile_append_of_all (t := []) h
  simpa using this

/-- `dropWhile` empties a list all of whose elements satisfy `p`. -/
theorem dropWhile_eq_nil_of_all {p : Char → Bool} {l : List Char}
    (h : ∀ a ∈ l, p a = true) : l.dropWhile p = [] := by
  have := dropWhile_append_of_all (t := []) h
  simpa using this

/-- `dropWhile` over an append when it stops inside the first block. -/
theorem dropWhile_append_of_stop {p : Char → Bool} {l : List Char}
    (h : l.dropWhile p ≠ []) (t : List Char) :
    (l ++ t).dropWhile p = l.dropWhile p ++ t := by
  induction l with
  | nil => simp at h
  | cons c l ih =>
    by_cases hc : p c = true
    · rw [List.dropWhile_cons, if_pos hc] at h
      rw [List.cons_append, List.dropWhile_cons, if_pos hc, ih h]
      rw [List.dropWhile_cons, if_pos hc]
    · rw [List.cons_append, List.dropWhile_cons, if_neg hc,
        List.dropWhile_cons, if_neg hc, List.cons_append]

/-- A list is a Bool-prefix of itself followed by anything. -/
theorem isPrefixOf_append_self (l t : List Char) :
    l.isPrefixOf (l ++ t) = true := by
  rw [List.isPrefixOf_iff_prefix]
  exact List.prefix_append l t

/-- `takeWhile` over an append when it stops inside the first block. -/
theorem takeWhile_append_of_stop {p : Char → Bool} {l : List Char}
    (h : l.dropWhile p ≠ []) (t : List Char) :
    (l ++ t).takeWhile p = l.takeWhile p := by
  induction l with
  | nil => simp at h
  | cons c l ih =>
    by_cases hc : p c = true
    · rw [List.dropWhile_cons, if_pos hc] at h
      rw [List.cons_append, List.takeWhile_cons, if_pos hc, ih h,
        List.takeWhile_cons, if_pos hc]
    · rw [List.cons_append, List.takeWhile_cons, if_neg hc,
        List.takeWhile_cons, if_neg hc]

/-- A nonempty `takeWhile` forces a head satisfying `p`. -/
theorem takeWhile_ne_nil_head {p : Char → Bool} {l : List Char}
    (h : l.takeWhile p ≠ []) : ∃ c t, l = c :: t ∧ p c = true := by
  cases l with
  | nil => simp at h
  | cons c t =>
    by_cases hc : p c = true
    · exact ⟨c, t, rfl, hc⟩
    · rw [List.takeWhile_cons, if_neg hc] at h
      simp at h

/-! ## Occurrences of `"/jobs/view/"` -/

/-- `"/jobs/view/"` cannot start at a non-slash character. -/
theorem jvLit_isPrefixOf_cons_false {c : Char} (hc : c ≠ '/') (s : List Char) :
    jvLit.isPrefixOf (c :: s) = false := by
  rw [show jvLit = '/' :: ['j', 'o', 'b', 's', '/', 'v', 'i', 'e', 'w', '/'] from rfl,
    List.isPrefixOf_cons₂]
  simp [beq_eq_false_iff_ne.mpr (Ne.symm hc)]

/-- Scanning for `"/jobs/view/"` skips a non-slash character. -/
theorem jobsViewTail_cons_of_ne {c : Char} (hc : c ≠ '/') (s : List Char) :
    jobsViewTail (c :: s) = jobsViewTail s := by
  simp [jobsViewTail, jvLit_isPrefixOf_cons_false hc]

/-- Scanning for `"/jobs/view/"` skips a slash-free block. -/
theorem jobsViewTail_skipAll {l : List Char} (h : ∀ a ∈ l, a ≠ '/')
    (s : List Char) : jobsViewTail (l ++ s) = jobsViewTail s := by
  induction l with
  | nil => rfl
  | cons c l ih =>
    rw [List.cons_append, jobsViewTail_cons_of_ne (h c (by simp))]
    exact ih (fun a ha => h a (by simp [ha]))

/-- When `"/jobs/view/"` starts right here, the scan stops here. -/
theorem jobsViewTail_of_isPrefixOf {s : List Char}
    (h : jvLit.isPrefixOf s = true) :
    jobsViewTail s = some (s.drop jvLit.length) := by
  cases s with
  | nil => simp [jvLit, List.isPrefixOf] at h
  | cons c rest => simp [jobsViewTail, h]

/-- The scan finds an occurrence placed at the very front. -/
theorem jobsViewTail_self_append (r : List Char) :
    jobsViewTail (jvLit ++ r) = some r := by
  rw [jobsViewTail_of_isPrefixOf (isPrefixOf_append_self _ _), List.drop_left]

/-- `"/jobs/view/"` cannot start at the slash preceding a slash-free
nonempty host block that is followed by a literal `"/jobs/view/"`. -/
theorem jvLit_not_prefix_mid {h : List Char} (hne : h ≠ [])
    (hslash : ∀ a ∈ h, a ≠ '/') (r : List Char) :
    jvLit.isPrefixOf ('/' :: (h ++ (jvLit ++ r))) = false := by
  match h, hne with
  | [a], _ =>
    rw [show jvLit = ['/', 'j', 'o', 'b', 's', '/', 'v', 'i', 'e', 'w', '/']
      from rfl]
    simp only [List.cons_append, List.nil_append, List.isPrefixOf_cons₂]
    simp [show (('o' : Char) == '/') = false from rfl]
  | [a, b], _ =>
    rw [show jvLit = ['/', 'j', 'o', 'b', 's', '/', 'v', 'i', 'e', 'w', '/']
      from rfl]
    simp only [List.cons_append, List.nil_append, List.isPrefixOf_cons₂]
    simp [show (('b' : Char) == '/') = false from rfl]
  | [a, b, c], _ =>
    rw [show jvLit = ['/', 'j', 'o', 'b', 's', '/', 'v', 'i', 'e', 'w', '/']
      from rfl]
    simp only [List.cons_append, List.nil_append, List.isPrefixOf_cons₂]
    simp [show (('s' : Char) == '/') = false from rfl]
  | [a, b, c, d], _ =>
    rw [show jvLit = ['/', 'j', 'o', 'b', 's', '/', 'v', 'i', 'e', 'w', '/']
      from rfl]
    simp only [List.cons_append, List.nil_append, List.isPrefixOf_cons₂]
    simp [show (('v' : Char) == 'j') = false from rfl]
  | a :: b :: c :: d :: e :: t, _ =>
    have he : (('/' : Char) == e) = false :=
      beq_eq_false_iff_ne.mpr (Ne.symm (hslash e (by simp)))
    rw [show jvLit = ['/', 'j', 'o', 'b', 's', '/', 'v', 'i', 'e', 'w', '/']
      from rfl]
    simp only [List.cons_append, List.isPrefixOf_cons₂]
    simp [he]

/-- Scanning `"//" ++ host ++ "/jobs/view/" ++ r` for
`"/jobs/view/"` with a nonempty slash-free host finds the literal
occurrence and returns `r`. -/
theorem jobsViewTail_slashes {h : List Char} (hne : h ≠ [])
    (hslash : ∀ a ∈ h, a ≠ '/') (r : List Char) :
    jobsViewTail ('/' :: '/' :: (h ++ (jvLit ++ r))) = some r := by
  have h1 : jvLit.isPrefixOf ('/' :: '/' :: (h ++ (jvLit ++ r))) = false := by
    rw [show jvLit = '/' :: 'j' :: ['o', 'b', 's', '/', 'v', 'i', 'e', 'w', '/']
      from rfl, List.isPrefixOf_cons₂, List.isPrefixOf_cons₂]
    simp [show (('j' : Char) == '/') = false from rfl]
  rw [show ('/' :: '/' :: (h ++ (jvLit ++ r))) =
    '/' :: ('/' :: (h ++ (jvLit ++ r))) from rfl]
  simp only [jobsViewTail, h1, Bool.false_eq_true, if_false]
  rw [show ('/' :: (h ++ (jvLit ++ r))) = '/' :: (h ++ (jvLit ++ r)) from rfl]
  simp only [jobsViewTail, jvLit_not_prefix_mid hne hslash r,
    Bool.false_eq_true, if_false]
  rw [jobsViewTail_skipAll hslash, jobsViewTail_self_append]

/-- Scanning a rebuilt URL `https://host/jobs/view/…` finds only the
path occurrence of `"/jobs/view/"`. -/
theorem jobsViewTail_https {h : List Char} (hne : h ≠ [])
    (hslash : ∀ a ∈ h, a ≠ '/') (r : List Char) :
    jobsViewTail (httpsLit ++ (h ++ (jvLit ++ r))) = some r := by
  rw [show httpsLit ++ (h ++ (jvLit ++ r)) =
    ['h', 't', 't', 'p', 's', ':'] ++ ('/' :: '/' :: (h ++ (jvLit ++ r)))
    from rfl]
  rw [jobsViewTail_skipAll (by decide), jobsViewTail_slashes hne hslash]

/-- The `http` variant of `jobsViewTail_https`. -/
theorem jobsViewTail_http {h : List Char} (hne : h ≠ [])
    (hslash : ∀ a ∈ h, a ≠ '/') (r : List Char) :
    jobsViewTail (httpLit ++ (h ++ (jvLit ++ r))) = some r := by
  rw [show httpLit ++ (h ++ (jvLit ++ r)) =
    ['h', 't', 't', 'p', ':'] ++ ('/' :: '/' :: (h ++ (jvLit ++ r)))
    from rfl]
  rw [jobsViewTail_skipAll (by decide), jobsViewTail_slashes hne hslash]

/-! ## The hyphen-id capture -/

/-- A digit is none of the structural URL characters. -/
theorem digit_ne {c x : Char} (h : c.isDigit = true) (hx : x.isDigit = false) :
    c ≠ x := by
  intro he
  rw [he, hx] at h
  cases h

/-- The hyphen matcher fails where there is no hyphen. -/
theorem matchHyphenId_cons_ne {c : Char} (hc : c ≠ '-') (rest : List Char) :
    matchHyphenId (c :: rest) = none := by
  simp [matchHyphenId, hc]

/-- No hyphen anywhere means no capture anywhere. -/
theorem lastHyphenMatch_none_of_no_hyphen {l : List Char}
    (h : ∀ a ∈ l, a ≠ '-') : lastHyphenMatch l = none := by
  induction l with
  | nil => rfl
  | cons c rest ih =>
    rw [lastHyphenMatch, ih (fun a ha => h a (by simp [ha])),
      matchHyphenId_cons_ne (h c (by simp))]

/-- All-digit lists contain no hyphen. -/
theorem no_hyphen_of_all_digit {l : List Char} (h : l.all Char.isDigit = true) :
    ∀ a ∈ l, a ≠ '-' := by
  intro a ha
  exact digit_ne (by simpa using List.all_eq_true.mp h a ha) (by decide)

/-- The capture of the hyphen-id regex over `b ++ "-" ++ d` when `d`
is a 10–12 digit run ending the string: the hyphen before `d` is the
rightmost one, and it matches with group `d`. -/
theorem lastHyphenMatch_append {b d : List Char}
    (hd : d.all Char.isDigit = true) (h10 : 10 ≤ d.length)
    (h12 : d.length ≤ 12) : lastHyphenMatch (b ++ '-' :: d) = some d := by
  induction b with
  | nil =>
    rw [List.nil_append, lastHyphenMatch,
      lastHyphenMatch_none_of_no_hyphen (no_hyphen_of_all_digit hd)]
    have hall : ∀ a ∈ d, Char.isDigit a = true := fun a ha =>
      List.all_eq_true.mp hd a ha
    rw [matchHyphenId, if_pos rfl]
    rw [takeWhile_eq_self_of_all hall, dropWhile_eq_nil_of_all hall]
    rw [if_pos ⟨h10, h12, rfl⟩]
  | cons c b ih =>
    rw [List.cons_append, lastHyphenMatch, ih]

/-- Any capture of the hyphen-id regex is a 10–12 digit run. -/
theorem lastHyphenMatch_shape {l d : List Char}
    (h : lastHyphenMatch l = some d) :
    d.all Char.isDigit = true ∧ 10 ≤ d.length ∧ d.length ≤ 12 := by
  induction l with
  | nil => cases h
  | cons c rest ih =>
    rw [lastHyphenMatch] at h
    cases hr : lastHyphenMatch rest with
    | some e => rw [hr] at h; exact ih (hr.trans h)
    | none =>
      rw [hr] at h
      rw [matchHyphenId] at h
      by_cases hc : c = '-'
      · rw [if_pos hc] at h
        by_cases hcond : 10 ≤ (rest.takeWhile Char.isDigit).length ∧
            (rest.takeWhile Char.isDigit).length ≤ 12 ∧
            termOk (rest.dropWhile Char.isDigit) = true
        · rw [if_pos hcond] at h
          cases h
          refine ⟨?_, hcond.1, hcond.2.1⟩
          exact List.all_eq_true.mpr (fun a ha => List.mem_takeWhile_imp ha)
        · rw [if_neg hcond] at h
          cases h
      · rw [if_neg hc] at h
        cases h

/-! ## Parsing the rebuilt URLs -/

/-- `wfHostChar` spelt out. -/
theorem wfHostChar_spec {c : Char} :
    wfHostChar c = true ↔ (c ≠ '/' ∧ c ≠ '?' ∧ c ≠ '#') := by
  simp [wfHostChar, not_or]

/-- `"https://"` is not a prefix of an `http://` URL. -/
theorem https_not_prefix_http (rest : List Char) :
    httpsLit.isPrefixOf (httpLit ++ rest) = false := by
  rw [show httpsLit = ['h', 't', 't', 'p'] ++ ['s', ':', '/', '/'] from rfl,
    show httpLit ++ rest = ['h', 't', 't', 'p'] ++ (':' :: '/' :: '/' :: rest)
      from rfl]
  simp only [List.cons_append, List.nil_append, List.isPrefixOf_cons₂]
  simp [show (('s' : Char) == ':') = false from rfl]

/-- Parsing a string that starts with `"https://"`. -/
theorem parseURL_append_https (rest : List Char) :
    parseURL (httpsLit ++ rest) = parseAfterScheme httpsLit rest := by
  rw [parseURL, if_pos (isPrefixOf_append_self _ _), List.drop_left]

/-- Parsing a string that starts with `"http://"`. -/
theorem parseURL_append_http (rest : List Char) :
    parseURL (httpLit ++ rest) = parseAfterScheme httpLit rest := by
  rw [parseURL, https_not_prefix_http]
  rw [if_neg (by simp), if_pos (isPrefixOf_append_self _ _), List.drop_left]

/-- The pathname of a rebuilt `…/jobs/view/<digits>` URL is the whole
remainder. -/
theorem pathnameOf_jv_append {d : List Char} (hd : d.all Char.isDigit = true) :
    pathnameOf (jvLit ++ d) = jvLit ++ d := by
  have hhead : (jvLit ++ d).head? = some '/' := rfl
  rw [pathnameOf, if_pos hhead]
  refine takeWhile_eq_self_of_all (fun a ha => ?_)
  rcases List.mem_append.mp ha with hj | hdd
  · have : ∀ a ∈ jvLit, (decide ¬(a = '?' ∨ a = '#')) = true := by decide
    exact this a hj
  · have hdig : a.isDigit = true := List.all_eq_true.mp hd a hdd
    exact decide_eq_true
      (not_or.mpr ⟨digit_ne hdig (by decide), digit_ne hdig (by decide)⟩)

/-- The pathname is `"/"` when the post-host remainder does not start
with `/`. -/
theorem pathnameOf_not_slash {c : Char} (hc : c ≠ '/') (t : List Char) :
    pathnameOf (c :: t) = ['/'] := by
  rw [pathnameOf]
  rw [if_neg (by simp [hc])]

/-- Digit runs right of the final hyphenless `"/jobs/view/"` segment
yield no capture. -/
theorem matchJobsViewId_jv_digits {d : List Char}
    (hd : d.all Char.isDigit = true) :
    matchJobsViewId (jvLit ++ d) = none := by
  rw [matchJobsViewId, jobsViewTail_self_append, Option.some_bind,
    lastHyphenMatch_none_of_no_hyphen (no_hyphen_of_all_digit hd)]

/-- Rebuilt `https` URLs are fixed points of `transformJobUrlL`. -/
theorem transformJobUrlL_fix_https {hst d : List Char} (hne : hst ≠ [])
    (hslash : ∀ a ∈ hst, a ≠ '/')
    (hhead : ∃ c t, hst = c :: t ∧ wfHostChar c = true)
    (hd : d.all Char.isDigit = true) :
    transformJobUrlL (httpsLit ++ (hst ++ (jvLit ++ d))) =
      httpsLit ++ (hst ++ (jvLit ++ d)) := by
  obtain ⟨c0, t0, hsplit, hc0⟩ := hhead
  have hSne : httpsLit ++ (hst ++ (jvLit ++ d)) ≠ [] := by simp [httpsLit]
  have hm2 : matchJobsViewId (httpsLit ++ (hst ++ (jvLit ++ d))) = none := by
    rw [matchJobsViewId, jobsViewTail_https hne hslash, Option.some_bind,
      lastHyphenMatch_none_of_no_hyphen (no_hyphen_of_all_digit hd)]
  have hwfslash : wfHostChar '/' = false := by decide
  by_cases hA : ∀ a ∈ hst, wfHostChar a = true
  · -- the host survives re-parsing whole
    have htake : (hst ++ (jvLit ++ d)).takeWhile wfHostChar = hst := by
      rw [takeWhile_append_of_all hA,
        show jvLit ++ d = '/' :: (['j', 'o', 'b', 's', '/', 'v', 'i', 'e',
          'w', '/'] ++ d) from rfl, List.takeWhile_cons, if_neg (by decide)]
      simp
    have hdrop : (hst ++ (jvLit ++ d)).dropWhile wfHostChar = jvLit ++ d := by
      rw [dropWhile_append_of_all hA,
        show jvLit ++ d = '/' :: (['j', 'o', 'b', 's', '/', 'v', 'i', 'e',
          'w', '/'] ++ d) from rfl, List.dropWhile_cons, if_neg (by decide)]
    have hparse : parseURL (httpsLit ++ (hst ++ (jvLit ++ d))) =
        some ⟨httpsLit ++ hst, jvLit ++ d⟩ := by
      rw [parseURL_append_https, parseAfterScheme]
      simp only [htake, hdrop]
      rw [if_neg hne, pathnameOf_jv_append hd]
    rw [transformJobUrlL, if_neg hSne, hparse]
    simp only [matchJobsViewId_jv_digits hd, hm2]
    cases rootMatchFn (httpsLit ++ (hst ++ (jvLit ++ d))) <;> rfl
  · -- the host contains `?` or `#`; re-parsing truncates it and the
    -- pathname collapses to "/"
    have hstop : hst.dropWhile wfHostChar ≠ [] := by
      intro hcon
      exact hA (List.dropWhile_eq_nil_iff.mp hcon)
    have htake : (hst ++ (jvLit ++ d)).takeWhile wfHostChar =
        hst.takeWhile wfHostChar := takeWhile_append_of_stop hstop _
    have hdrop : (hst ++ (jvLit ++ d)).dropWhile wfHostChar =
        hst.dropWhile wfHostChar ++ (jvLit ++ d) :=
      dropWhile_append_of_stop hstop _
    have hhne : hst.takeWhile wfHostChar ≠ [] := by
      rw [hsplit, List.takeWhile_cons, if_pos hc0]
      simp
    obtain ⟨e0, es, hes⟩ : ∃ e0 es, hst.dropWhile wfHostChar = e0 :: es := by
      cases hcase : hst.dropWhile wfHostChar with
      | nil => exact absurd hcase hstop
      | cons e0 es => exact ⟨e0, es, rfl⟩
    have he0wf : wfHostChar e0 = false := by
      have h := List.head?_dropWhile_not wfHostChar hst
      rw [hes] at h
      simpa using h
    have he0mem : e0 ∈ hst :=
      (List.dropWhile_sublist wfHostChar).subset (hes ▸ List.mem_cons_self e0 es)
    have he0slash : e0 ≠ '/' := hslash e0 he0mem
    have hparse : parseURL (httpsLit ++ (hst ++ (jvLit ++ d))) =
        some ⟨httpsLit ++ hst.takeWhile wfHostChar, ['/']⟩ := by
      rw [parseURL_append_https, parseAfterScheme]
      simp only [htake, hdrop, hes]
      rw [if_neg hhne, List.cons_append, pathnameOf_not_slash he0slash]
    rw [transformJobUrlL, if_neg hSne, hparse]
    simp only [show matchJobsViewId ['/'] = none from rfl, hm2]
    cases rootMatchFn (httpsLit ++ (hst ++ (jvLit ++ d))) <;> rfl

/-- Rebuilt `http` URLs are fixed points of `transformJobUrlL`. -/
theorem transformJobUrlL_fix_http {hst d : List Char} (hne : hst ≠ [])
    (hwf : ∀ a ∈ hst, wfHostChar a = true)
    (hd : d.all Char.isDigit = true) :
    transformJobUrlL (httpLit ++ (hst ++ (jvLit ++ d))) =
      httpLit ++ (hst ++ (jvLit ++ d)) := by
  have hSne : httpLit ++ (hst ++ (jvLit ++ d)) ≠ [] := by simp [httpLit]
  have htake : (hst ++ (jvLit ++ d)).takeWhile wfHostChar = hst := by
    rw [takeWhile_append_of_all hwf,
      show jvLit ++ d = '/' :: (['j', 'o', 'b', 's', '/', 'v', 'i', 'e',
        'w', '/'] ++ d) from rfl, List.takeWhile_cons, if_neg (by decide)]
    simp
  have hdrop : (hst ++ (jvLit ++ d)).dropWhile wfHostChar = jvLit ++ d := by
    rw [dropWhile_append_of_all hwf,
      show jvLit ++ d = '/' :: (['j', 'o', 'b', 's', '/', 'v', 'i', 'e',
        'w', '/'] ++ d) from rfl, List.dropWhile_cons, if_neg (by decide)]
  have hparse : parseURL (httpLit ++ (hst ++ (jvLit ++ d))) =
      some ⟨httpLit ++ hst, jvLit ++ d⟩ := by
    rw [parseURL_append_http, parseAfterScheme]
    simp only [htake, hdrop]
    rw [if_neg hne, pathnameOf_jv_append hd]
  have hroot : rootMatchFn (httpLit ++ (hst ++ (jvLit ++ d))) = none := by
    rw [rootMatchFn, https_not_prefix_http]
    simp
  rw [transformJobUrlL, if_neg hSne, hparse]
  simp only [matchJobsViewId_jv_digits hd, hroot]

/-- What a successful parse tells about the URL's origin. -/
theorem parseURL_shape {s : List Char} {u : URLParts}
    (h : parseURL s = some u) :
    ∃ scheme host,
      (scheme = httpsLit ∨ scheme = httpLit) ∧
      u.origin = scheme ++ host ∧ host ≠ [] ∧
      (∀ c ∈ host, wfHostChar c = true) := by
  rw [parseURL] at h
  by_cases h1 : httpsLit.isPrefixOf s = true
  · rw [if_pos h1] at h
    simp only [parseAfterScheme] at h
    by_cases h2 : (s.drop httpsLit.length).takeWhile wfHostChar = []
    · rw [if_pos h2] at h; cases h
    · rw [if_neg h2] at h
      refine ⟨httpsLit, (s.drop httpsLit.length).takeWhile wfHostChar,
        Or.inl rfl, ?_, h2, fun c hc => List.mem_takeWhile_imp hc⟩
      rw [← Option.some.inj h]
  · rw [if_neg h1] at h
    by_cases h1b : httpLit.isPrefixOf s = true
    · rw [if_pos h1b] at h
      simp only [parseAfterScheme] at h
      by_cases h2 : (s.drop httpLit.length).takeWhile wfHostChar = []
      · rw [if_pos h2] at h; cases h
      · rw [if_neg h2] at h
        refine ⟨httpLit, (s.drop httpLit.length).takeWhile wfHostChar,
          Or.inr rfl, ?_, h2, fun c hc => List.mem_takeWhile_imp hc⟩
        rw [← Option.some.inj h]
    · rw [if_neg h1b] at h
      cases h

/-- What a successful root match tells about its capture. -/
theorem rootMatchFn_some {s root : List Char} (h : rootMatchFn s = some root) :
    httpsLit.isPrefixOf s = true ∧
    root = httpsLit ++
      (s.drop httpsLit.length).takeWhile (fun c => ¬(c = '/')) ∧
    (s.drop httpsLit.length).takeWhile (fun c => ¬(c = '/')) ≠ [] := by
  simp only [rootMatchFn] at h
  by_cases h1 : httpsLit.isPrefixOf s = true
  · rw [if_pos h1] at h
    by_cases h2 : (s.drop httpsLit.length).takeWhile (fun c => ¬(c = '/')) ≠ [] ∧
        jvLit.isPrefixOf
          ((s.drop httpsLit.length).dropWhile (fun c => ¬(c = '/'))) = true
    · rw [if_pos h2] at h
      exact ⟨h1, (Option.some.inj h).symm, h2.1⟩
    · rw [if_neg h2] at h; cases h
  · rw [if_neg h1] at h; cases h

/-- Any capture of the path/raw-string id regex is a 10–12 digit run. -/
theorem matchJobsViewId_shape {s d : List Char}
    (h : matchJobsViewId s = some d) :
    d.all Char.isDigit = true ∧ 10 ≤ d.length ∧ d.length ≤ 12 := by
  rw [matchJobsViewId] at h
  cases ht : jobsViewTail s with
  | none => rw [ht] at h; cases h
  | some t => rw [ht, Option.some_bind] at h; exact lastHyphenMatch_shape h

/-- `transformJobUrlL` is idempotent on every character list. -/
theorem transformJobUrlL_idem (l : List Char) :
    transformJobUrlL (transformJobUrlL l) = transformJobUrlL l := by
  by_cases hne : l = []
  · subst hne; rfl
  cases hp : parseURL l with
  | none =>
    have hl : transformJobUrlL l = l := by
      rw [transformJobUrlL, if_neg hne, hp]
    rw [hl]; exact hl
  | some u =>
    cases hm : matchJobsViewId u.pathname with
    | some d =>
      have hl : transformJobUrlL l = u.origin ++ jvLit ++ d := by
        rw [transformJobUrlL, if_neg hne, hp]
        simp only [hm]
      obtain ⟨scheme, host, hsch, horig, hhne, hwf⟩ := parseURL_shape hp
      have hdshape := matchJobsViewId_shape hm
      have hformL : u.origin ++ jvLit ++ d = scheme ++ (host ++ (jvLit ++ d)) := by
        rw [horig]; simp [List.append_assoc]
      rw [hl, hformL]
      rcases hsch with rfl | rfl
      · have hslash : ∀ a ∈ host, a ≠ '/' := fun a ha =>
          (wfHostChar_spec.mp (hwf a ha)).1
        have hhead : ∃ c t, host = c :: t ∧ wfHostChar c = true := by
          cases host with
          | nil => exact absurd rfl hhne
          | cons c t => exact ⟨c, t, rfl, hwf c (by simp)⟩
        rw [transformJobUrlL_fix_https hhne hslash hhead hdshape.1]
      · rw [transformJobUrlL_fix_http hhne hwf hdshape.1]
    | none =>
      cases hr : rootMatchFn l with
      | none =>
        have hl : transformJobUrlL l = l := by
          rw [transformJobUrlL, if_neg hne, hp]
          simp only [hm, hr]
        rw [hl]; exact hl
      | some root =>
        cases hi : matchJobsViewId l with
        | none =>
          have hl : transformJobUrlL l = l := by
            rw [transformJobUrlL, if_neg hne, hp]
            simp only [hm, hr, hi]
          rw [hl]; exact hl
        | some d =>
          have hl : transformJobUrlL l = root ++ jvLit ++ d := by
            rw [transformJobUrlL, if_neg hne, hp]
            simp only [hm, hr, hi]
          obtain ⟨hpre, hroot, hrne⟩ := rootMatchFn_some hr
          have hdshape := matchJobsViewId_shape hi
          have hhostne : (l.drop httpsLit.length).takeWhile wfHostChar ≠ [] := by
            intro hcon
            rw [parseURL, if_pos hpre] at hp
            simp only [parseAfterScheme] at hp
            rw [if_pos hcon] at hp
            cases hp
          obtain ⟨c0, t0, hct, hc0⟩ := takeWhile_ne_nil_head hhostne
          have hc0s : c0 ≠ '/' := (wfHostChar_spec.mp hc0).1
          have hh : (l.drop httpsLit.length).takeWhile (fun c => ¬(c = '/')) =
              c0 :: t0.takeWhile (fun c => ¬(c = '/')) := by
            rw [hct, List.takeWhile_cons, if_pos (by simp [hc0s])]
          have hslash : ∀ a ∈ (l.drop httpsLit.length).takeWhile
              (fun c => ¬(c = '/')), a ≠ '/' := by
            intro a ha
            have := List.mem_takeWhile_imp ha
            simpa using this
          have hhead : ∃ c t,
              (l.drop httpsLit.length).takeWhile (fun c => ¬(c = '/')) = c :: t ∧
              wfHostChar c = true :=
            ⟨c0, t0.takeWhile (fun c => ¬(c = '/')), hh, hc0⟩
          have hform : root ++ jvLit ++ d = httpsLit ++
              ((l.drop httpsLit.length).takeWhile (fun c => ¬(c = '/')) ++
                (jvLit ++ d)) := by
            rw [hroot]; simp [List.append_assoc]
          rw [hl, hform]
          rw [transformJobUrlL_fix_https hrne hslash hhead hdshape.1]

/-! ## Claim C3 -/

/-- Claim C3, counterexample.  The URL
`https://example.com/careers/foo-1234567890` parses, and its path
contains a 10-digit id segment preceded by a hyphen, yet
`transformJobUrl` returns it unchanged instead of
`origin + "/jobs/view/" + id`: the regex also requires the literal
`"/jobs/view/"` in the path, which the claim's premise omits. -/
theorem normalizeUrl_claim_counterexample :
    parseURL ("https://example.com/careers/foo-1234567890".toList) =
      some ⟨"https://example.com".toList, "/careers/foo-1234567890".toList⟩ ∧
    hasHyphenIdSegment ("/careers/foo-1234567890".toList) = true ∧
    transformJobUrl "https://example.com/careers/foo-1234567890" =
      "https://example.com/careers/foo-1234567890" ∧
    transformJobUrl "https://example.com/careers/foo-1234567890" ≠
      "https://example.com/jobs/view/1234567890" := by
  refine ⟨by decide, by decide, by decide, by decide⟩

/-- Claim C3 (amended): for every URL whose parsed pathname has the
form `/jobs/view/…-<id>` with a 10–12 digit id ending the path,
`transformJobUrl` returns `origin + "/jobs/view/" + id`; and
`transformJobUrl` is idempotent on every input string. -/
theorem normalizeUrl_rewrite_and_idempotent :
    (∀ (x : String) (u : URLParts) (b d : List Char),
        parseURL x.toList = some u →
        u.pathname = jvLit ++ (b ++ ('-' :: d)) →
        d.all Char.isDigit = true → 10 ≤ d.length → d.length ≤ 12 →
        transformJobUrl x = String.mk (u.origin ++ jvLit ++ d)) ∧
    (∀ x : String, transformJobUrl (transformJobUrl x) = transformJobUrl x) := by
  constructor
  · intro x u b d hp hpath hd h10 h12
    have hxne : x.toList ≠ [] := by
      intro hcon
      rw [hcon, show parseURL [] = none from rfl] at hp
      cases hp
    have hm : matchJobsViewId u.pathname = some d := by
      rw [hpath, matchJobsViewId, jobsViewTail_self_append, Option.some_bind]
      exact lastHyphenMatch_append hd h10 h12
    have hL : transformJobUrlL x.toList = u.origin ++ jvLit ++ d := by
      rw [transformJobUrlL, if_neg hxne, hp]
      simp only [hm]
    rw [transformJobUrl, hL]
  · intro x
    exact congrArg String.mk (transformJobUrlL_idem x.toList)

/-- Claim C3, witness: a LinkedIn-style job URL is rewritten to the
canonical `origin + "/jobs/view/" + id` form, and re-applying the
transform is the identity there. -/
theorem normalizeUrl_rewrite_witness :
    transformJobUrl "https://www.linkedin.com/jobs/view/swe-role-1234567890" =
      "https://www.linkedin.com/jobs/view/1234567890" ∧
    transformJobUrl
        (transformJobUrl "https://www.linkedin.com/jobs/view/swe-role-1234567890") =
      transformJobUrl "https://www.linkedin.com/jobs/view/swe-role-1234567890" := by
  constructor
  · have h := normalizeUrl_rewrite_and_idempotent.1
      "https://www.linkedin.com/jobs/view/swe-role-1234567890"
      ⟨"https://www.linkedin.com".toList, "/jobs/view/swe-role-1234567890".toList⟩
      "swe-role".toList "1234567890".toList
      (by decide) (by decide) (by decide) (by decide) (by decide)
    exact h.trans (by decide)
  · exact normalizeUrl_rewrite_and_idempotent.2
      "https://www.linkedin.com/jobs/view/swe-role-1234567890"

/-! ## Claim C9 -/

/-- Claim C9: for every malformed URL string — one the URL parser
rejects — `transformJobUrl` returns the input unchanged, and (being
a total function) never throws.  The `catch` branch of the source
returns `jobUrl`, and the falsy guard returns `''` = the input when
the input is the empty string. -/
theorem malformed_url_unchanged (s : String)
    (h : parseURL s.toList = none) : transformJobUrl s = s := by
  by_cases he : s.toList = []
  · rw [transformJobUrl, transformJobUrlL, if_pos he, ← he, string_mk_toList]
  · rw [transformJobUrl, transformJobUrlL, if_neg he, h, string_mk_toList]

/-- Claim C9, witness: a string with no scheme is returned unchanged. -/
theorem malformed_url_unchanged_witness :
    transformJobUrl "not a url" = "not a url" :=
  malformed_url_unchanged "not a url" (by decide)

/-! ## Claim C10 -/

/-- Claim C10: a falsy argument — `null`/`undefined` (modelled as
`none`) or the empty string — makes `transformJobUrl` return the
empty string without throwing; for `null`/`undefined` the result is
a coerced `''`, not the input itself. -/
theorem falsy_input_yields_empty_string :
    transformJobUrlJS none = "" ∧ transformJobUrlJS (some "") = "" := by
  exact ⟨rfl, rfl⟩

/-! ## Trace structure of the orchestrator -/

/-- `scrapeLocation` emits no unit-attempt markers. -/
theorem attemptsOf_scrapeLocation (e : UnitEnv) (k ln : String) (gid : Int) :
    attemptsOf (scrapeLocation e k ln gid).1 = [] := by
  simp only [scrapeLocation, scrapeFail, prependEvents]
  repeat' split
  all_goals simp [attemptsOf]

/-- `scrapeLocation` emits no inter-unit delays. -/
theorem delaysOf_scrapeLocation (e : UnitEnv) (k ln : String) (gid : Int) :
    delaysOf (scrapeLocation e k ln gid).1 = [] := by
  simp only [scrapeLocation, scrapeFail, prependEvents]
  repeat' split
  all_goals simp [delaysOf]

/-- `scrapeLocation` emits no recovery attempts. -/
theorem recoverAttemptsOf_scrapeLocation (e : UnitEnv) (k ln : String)
    (gid : Int) : recoverAttemptsOf (scrapeLocation e k ln gid).1 = 0 := by
  simp only [scrapeLocation, scrapeFail, prependEvents]
  repeat' split
  all_goals simp [recoverAttemptsOf]

/-- The attempts observation distributes over appends. -/
theorem attemptsOf_append (a b : List OEvent) :
    attemptsOf (a ++ b) = attemptsOf a ++ attemptsOf b :=
  List.filterMap_append a b _

/-- The delays observation distributes over appends. -/
theorem delaysOf_append (a b : List OEvent) :
    delaysOf (a ++ b) = delaysOf a ++ delaysOf b :=
  List.filterMap_append a b _

/-- The recovery-attempt count adds over appends. -/
theorem recoverAttemptsOf_append (a b : List OEvent) :
    recoverAttemptsOf (a ++ b) = recoverAttemptsOf a + recoverAttemptsOf b := by
  rw [recoverAttemptsOf, List.filterMap_append, List.length_append]
  rfl

/-- The catch block only touches `errors` and the trace, appending
exactly `caughtEvents`. -/
theorem handleCaught_effect (env : RunEnv) (i : Nat) (k ln msg : String)
    (urlField browserState : Option String) (st : OrchState) :
    (handleCaught env i k ln msg urlField browserState st).trace =
      st.trace ++ caughtEvents env i msg browserState ∧
    (handleCaught env i k ln msg urlField browserState st).errors =
      st.errors ++ [⟨k, ln, none, msg,
        some (match urlField with
              | some u => if u = "" then "not generated" else u
              | none => "not generated")⟩] ∧
    (handleCaught env i k ln msg urlField browserState st).totalScraped =
      st.totalScraped ∧
    (handleCaught env i k ln msg urlField browserState st).totalInserted =
      st.totalInserted ∧
    (handleCaught env i k ln msg urlField browserState st).screenshots =
      st.screenshots := by
  simp only [handleCaught, caughtEvents, pushError, pushEvents]
  repeat' split
  all_goals simp

/-- The scrape-and-ingest phase appends exactly `phaseEvents` to the
trace. -/
theorem scrapePhase_trace (env : RunEnv) (k ln : String) (gid : Int) (i : Nat)
    (st : OrchState) :
    (scrapePhase env k ln gid i st).trace =
      st.trace ++ phaseEvents env k ln gid i := by
  simp only [scrapePhase, phaseEvents, pushEvents, pushError]
  cases hr : (scrapeLocation (env.unitEnv i) k ln gid).2 with
  | ok jobs =>
    simp only [hr]
    repeat' split
    all_goals simp
  | error serr =>
    simp only [hr]
    rw [(handleCaught_effect env i k ln serr.message (some serr.url)
      (some serr.browserState) _).1]
    simp

/-- One iteration appends exactly `unitEvents` to the trace. -/
theorem stepUnit_trace (env : RunEnv) (k ln : String) (gid : Int) (i : Nat)
    (st : OrchState) :
    (stepUnit env k ln gid i st).trace = st.trace ++ unitEvents env k ln gid i := by
  simp only [stepUnit, unitEvents]
  by_cases h1 : env.connectedPre i
  · simp only [if_pos h1, pushEvents, scrapePhase_trace]
    simp
  · simp only [if_neg h1]
    by_cases h2 : env.recoverPreOk i
    · simp only [if_pos h2, pushEvents, scrapePhase_trace]
      simp
    · simp only [if_neg h2, pushEvents]
      rw [(handleCaught_effect env i k ln (env.recoverPreMsg i) none none _).1]
      simp [pushEvents]

/-- The catch block emits no unit-attempt markers. -/
theorem attemptsOf_caughtEvents (env : RunEnv) (i : Nat) (msg : String)
    (bs : Option String) : attemptsOf (caughtEvents env i msg bs) = [] := by
  rw [caughtEvents]
  split
  · split <;> simp [attemptsOf]
  · rfl

/-- The catch block emits no inter-unit delays. -/
theorem delaysOf_caughtEvents (env : RunEnv) (i : Nat) (msg : String)
    (bs : Option String) : delaysOf (caughtEvents env i msg bs) = [] := by
  rw [caughtEvents]
  split
  · split <;> simp [delaysOf]
  · rfl

/-- The catch block attempts recovery exactly when the condition of
line 546 holds. -/
theorem recoverAttemptsOf_caughtEvents (env : RunEnv) (i : Nat) (msg : String)
    (bs : Option String) :
    recoverAttemptsOf (caughtEvents env i msg bs) =
      if recoveryIndicated bs msg then 1 else 0 := by
  rw [caughtEvents]
  split
  · split <;> simp [recoverAttemptsOf]
  · rfl

/-- An attempt event heads the attempts observation. -/
theorem attemptsOf_cons_attempt (k ln : String) (l : List OEvent) :
    attemptsOf (OEvent.attempt k ln :: l) = (k, ln) :: attemptsOf l := by
  simp [attemptsOf]

/-- Recovery markers are invisible to the attempts observation. -/
theorem attemptsOf_cons_recover (l : List OEvent) :
    attemptsOf (OEvent.recoverAttempt :: l) = attemptsOf l ∧
    attemptsOf (OEvent.recoverSuccess :: l) = attemptsOf l ∧
    attemptsOf (OEvent.recoverFailed :: l) = attemptsOf l := by
  refine ⟨?_, ?_, ?_⟩ <;> simp [attemptsOf]

/-- Recovery markers are invisible to the delays observation. -/
theorem delaysOf_cons_recover (l : List OEvent) :
    delaysOf (OEvent.recoverAttempt :: l) = delaysOf l ∧
    delaysOf (OEvent.recoverSuccess :: l) = delaysOf l ∧
    delaysOf (OEvent.recoverFailed :: l) = delaysOf l := by
  refine ⟨?_, ?_, ?_⟩ <;> simp [delaysOf]

/-- The scrape phase emits no unit-attempt markers. -/
theorem attemptsOf_phaseEvents (env : RunEnv) (k ln : String) (gid : Int)
    (i : Nat) : attemptsOf (phaseEvents env k ln gid i) = [] := by
  rw [phaseEvents, attemptsOf_append, attemptsOf_scrapeLocation]
  cases (scrapeLocation (env.unitEnv i) k ln gid).2 with
  | ok jobs => rfl
  | error serr => simp [attemptsOf_caughtEvents]

/-- The scrape phase emits no inter-unit delays. -/
theorem delaysOf_phaseEvents (env : RunEnv) (k ln : String) (gid : Int)
    (i : Nat) : delaysOf (phaseEvents env k ln gid i) = [] := by
  rw [phaseEvents, delaysOf_append, delaysOf_scrapeLocation]
  cases (scrapeLocation (env.unitEnv i) k ln gid).2 with
  | ok jobs => rfl
  | error serr => simp [delaysOf_caughtEvents]

/-- One iteration records exactly its own unit attempt. -/
theorem attemptsOf_unitEvents (env : RunEnv) (k ln : String) (gid : Int)
    (i : Nat) : attemptsOf (unitEvents env k ln gid i) = [(k, ln)] := by
  rw [unitEvents, attemptsOf_cons_attempt, attemptsOf_append]
  have hbr : attemptsOf (if env.connectedPre i then
      phaseEvents env k ln gid i
    else
      OEvent.recoverAttempt ::
        (if env.recoverPreOk i then
          OEvent.recoverSuccess :: phaseEvents env k ln gid i
        else
          OEvent.recoverFailed ::
            caughtEvents env i (env.recoverPreMsg i) none)) = [] := by
    split
    · exact attemptsOf_phaseEvents env k ln gid i
    · rw [(attemptsOf_cons_recover _).1]
      split
      · rw [(attemptsOf_cons_recover _).2.1]
        exact attemptsOf_phaseEvents env k ln gid i
      · rw [(attemptsOf_cons_recover _).2.2]
        exact attemptsOf_caughtEvents env i _ none
  rw [hbr]
  rfl

/-- One iteration records exactly one inter-unit delay — the
`randomBetween(2000, 5000)` draw — and it is the iteration's final
event, placed after success and failure handling alike. -/
theorem delaysOf_unitEvents (env : RunEnv) (k ln : String) (gid : Int)
    (i : Nat) :
    delaysOf (unitEvents env k ln gid i) =
      [randomBetween 2000 5000 (env.random i)] ∧
    (unitEvents env k ln gid i).getLast? =
      some (OEvent.delay (randomBetween 2000 5000 (env.random i))) := by
  constructor
  · rw [unitEvents,
      show delaysOf (OEvent.attempt k ln :: ((if env.connectedPre i then
        phaseEvents env k ln gid i
      else
        OEvent.recoverAttempt ::
          (if env.recoverPreOk i then
            OEvent.recoverSuccess :: phaseEvents env k ln gid i
          else
            OEvent.recoverFailed ::
              caughtEvents env i (env.recoverPreMsg i) none)) ++
        [OEvent.delay (randomBetween 2000 5000 (env.random i))])) =
      delaysOf ((if env.connectedPre i then
        phaseEvents env k ln gid i
      else
        OEvent.recoverAttempt ::
          (if env.recoverPreOk i then
            OEvent.recoverSuccess :: phaseEvents env k ln gid i
          else
            OEvent.recoverFailed ::
              caughtEvents env i (env.recoverPreMsg i) none)) ++
        [OEvent.delay (randomBetween 2000 5000 (env.random i))])
      from by simp [delaysOf]]
    rw [delaysOf_append]
    have hbr : delaysOf (if env.connectedPre i then
        phaseEvents env k ln gid i
      else
        OEvent.recoverAttempt ::
          (if env.recoverPreOk i then
            OEvent.recoverSuccess :: phaseEvents env k ln gid i
          else
            OEvent.recoverFailed ::
              caughtEvents env i (env.recoverPreMsg i) none)) = [] := by
      split
      · exact delaysOf_phaseEvents env k ln gid i
      · rw [(delaysOf_cons_recover _).1]
        split
        · rw [(delaysOf_cons_recover _).2.1]
          exact delaysOf_phaseEvents env k ln gid i
        · rw [(delaysOf_cons_recover _).2.2]
          exact delaysOf_caughtEvents env i _ none
    rw [hbr]
    rfl
  · rw [unitEvents,
      show ∀ (a : OEvent) (l m : List OEvent), a :: (l ++ m) = (a :: l) ++ m
        from fun a l m => rfl,
      List.getLast?_concat]

/-! ## Claim C1 -/

/-- The inner loop attempts exactly its locations, in order. -/
theorem runLocations_attempts (env : RunEnv) (k : String) :
    ∀ (locs : List (String × Int)) (i : Nat) (st : OrchState),
      attemptsOf (runLocations env k locs i st).1.trace =
        attemptsOf st.trace ++ locs.map (fun l => (k, l.1)) := by
  intro locs
  induction locs with
  | nil => intro i st; simp [runLocations]
  | cons hd tl ih =>
    intro i st
    rw [show runLocations env k (hd :: tl) i st =
      runLocations env k tl (i + 1) (stepUnit env k hd.1 hd.2 i st) from rfl]
    rw [ih, stepUnit_trace, attemptsOf_append, attemptsOf_unitEvents]
    simp

/-- The outer loop attempts exactly the keyword × location matrix, in
order. -/
theorem runKeywords_attempts (env : RunEnv) :
    ∀ (ks : List String) (locs : List (String × Int)) (i : Nat)
      (st : OrchState),
      attemptsOf (runKeywords env ks locs i st).1.trace =
        attemptsOf st.trace ++
          ks.flatMap (fun k => locs.map (fun l => (k, l.1))) := by
  intro ks
  induction ks with
  | nil => intro locs i st; simp [runKeywords]
  | cons k ks ih =>
    intro locs i st
    rw [show runKeywords env (k :: ks) locs i st =
      runKeywords env ks locs (runLocations env k locs i st).2
        (runLocations env k locs i st).1 from rfl]
    rw [ih, runLocations_attempts]
    simp

/-- Claim C1: for non-empty inputs the orchestrator attempts exactly
`|terms| × |locations|` units, in nested order — outer loop over the
terms in input order, inner loop over the locations in input order —
with no unit skipped, repeated or reordered. -/
theorem orchestrator_unit_matrix (env : RunEnv) (ks : List String)
    (locs : List (String × Int)) (hk : ks ≠ []) (hl : locs ≠ []) :
    attemptsOf (runScrapeState env ks locs).trace =
      ks.flatMap (fun k => locs.map (fun l => (k, l.1))) ∧
    (attemptsOf (runScrapeState env ks locs).trace).length =
      ks.length * locs.length := by
  have h := runKeywords_attempts env ks locs 0 initState
  rw [runScrapeState]
  constructor
  · rw [h]; rfl
  · rw [h]
    have hsum : ∀ ks' : List String,
        (List.map (List.length ∘ fun k => List.map (fun l => (k, l.1)) locs)
          ks').sum = ks'.length * locs.length := by
      intro ks'
      induction ks' with
      | nil => simp
      | cons k ks' ih =>
        simp only [List.map_cons, List.sum_cons, Function.comp_apply,
          List.length_map, List.length_cons, Nat.succ_mul, ih, Nat.add_comm]
    simp only [attemptsOf, initState, List.filterMap_nil, List.nil_append,
      List.length_flatMap, hsum]

/-- Claim C1, witness at a 2 × 2 matrix. -/
theorem orchestrator_unit_matrix_witness :
    attemptsOf (runScrapeState sampleRunEnv ["X", "Y"]
        [("A", 1), ("B", 2)]).trace =
      [("X", "A"), ("X", "B"), ("Y", "A"), ("Y", "B")] ∧
    (attemptsOf (runScrapeState sampleRunEnv ["X", "Y"]
        [("A", 1), ("B", 2)]).trace).length = 2 * 2 := by
  have h := orchestrator_unit_matrix sampleRunEnv ["X", "Y"]
    [("A", 1), ("B", 2)] (by decide) (by decide)
  exact ⟨h.1.trans (by decide), h.2⟩

/-! ## Claim C7 -/

/-- The inner loop records one delay per location. -/
theorem runLocations_delays (env : RunEnv) (k : String) :
    ∀ (locs : List (String × Int)) (i : Nat) (st : OrchState),
      (delaysOf (runLocations env k locs i st).1.trace).length =
        (delaysOf st.trace).length + locs.length ∧
      ∀ d ∈ delaysOf (runLocations env k locs i st).1.trace,
        d ∈ delaysOf st.trace ∨
          ∃ j, d = randomBetween 2000 5000 (env.random j) := by
  intro locs
  induction locs with
  | nil =>
    intro i st
    exact ⟨by simp [runLocations], fun d hd => Or.inl hd⟩
  | cons hd tl ih =>
    intro i st
    rw [show runLocations env k (hd :: tl) i st =
      runLocations env k tl (i + 1) (stepUnit env k hd.1 hd.2 i st) from rfl]
    have hstep : delaysOf (stepUnit env k hd.1 hd.2 i st).trace =
        delaysOf st.trace ++ [randomBetween 2000 5000 (env.random i)] := by
      rw [stepUnit_trace, delaysOf_append,
        (delaysOf_unitEvents env k hd.1 hd.2 i).1]
    refine ⟨?_, ?_⟩
    · rw [(ih _ _).1, hstep]
      simp [List.length_append, Nat.add_assoc, Nat.add_comm]
    · intro d hd'
      rcases (ih _ _).2 d hd' with hmem | hnew
      · rw [hstep] at hmem
        rcases List.mem_append.mp hmem with h | h
        · exact Or.inl h
        · exact Or.inr ⟨i, by simpa using h⟩
      · exact Or.inr hnew

/-- The outer loop records one delay per unit of the matrix. -/
theorem runKeywords_delays (env : RunEnv) :
    ∀ (ks : List String) (locs : List (String × Int)) (i : Nat)
      (st : OrchState),
      (delaysOf (runKeywords env ks locs i st).1.trace).length =
        (delaysOf st.trace).length + ks.length * locs.length ∧
      ∀ d ∈ delaysOf (runKeywords env ks locs i st).1.trace,
        d ∈ delaysOf st.trace ∨
          ∃ j, d = randomBetween 2000 5000 (env.random j) := by
  intro ks
  induction ks with
  | nil =>
    intro locs i st
    exact ⟨by simp [runKeywords], fun d hd => Or.inl hd⟩
  | cons k ks ih =>
    intro locs i st
    rw [show runKeywords env (k :: ks) locs i st =
      runKeywords env ks locs (runLocations env k locs i st).2
        (runLocations env k locs i st).1 from rfl]
    refine ⟨?_, ?_⟩
    · rw [(ih _ _ _).1, (runLocations_delays env k locs i st).1]
      simp only [List.length_cons, Nat.succ_mul]
      omega
    · intro d hd'
      rcases (ih _ _ _).2 d hd' with hmem | hnew
      · rcases (runLocations_delays env k locs i st).2 d hmem with h | h
        · exact Or.inl h
        · exact Or.inr h
      · exact Or.inr hnew

/-- `randomBetween 2000 5000` of a `Math.random()` draw lies in the
2–5 second window. -/
theorem randomBetween_bounds {r : ℚ} (h0 : 0 ≤ r) (h1 : r < 1) :
    2000 ≤ randomBetween 2000 5000 r ∧ randomBetween 2000 5000 r < 5000 := by
  rw [randomBetween]
  constructor
  · nlinarith
  · nlinarith

/-- Claim C7: after every unit — success, empty result or failure of
any kind — the orchestrator waits an inter-unit delay drawn from the
fixed 2–5 second window before the next unit.  One iteration always
ends with exactly one delay event (first conjunct: the delay is the
last event of each iteration and each iteration has exactly one);
across a run there are exactly `|terms| × |locations|` delays, all in
`[2000 ms, 5000 ms)` when `Math.random()` draws in `[0, 1)`. -/
theorem unconditional_interunit_delay (env : RunEnv)
    (hr : ∀ i, 0 ≤ env.random i ∧ env.random i < 1) :
    (∀ (k ln : String) (gid : Int) (i : Nat) (st : OrchState),
      (stepUnit env k ln gid i st).trace = st.trace ++ unitEvents env k ln gid i ∧
      delaysOf (unitEvents env k ln gid i) =
        [randomBetween 2000 5000 (env.random i)] ∧
      (unitEvents env k ln gid i).getLast? =
        some (OEvent.delay (randomBetween 2000 5000 (env.random i)))) ∧
    (∀ (ks : List String) (locs : List (String × Int)),
      (delaysOf (runScrapeState env ks locs).trace).length =
        ks.length * locs.length ∧
      ∀ d ∈ delaysOf (runScrapeState env ks locs).trace,
        2000 ≤ d ∧ d < 5000) := by
  constructor
  · intro k ln gid i st
    exact ⟨stepUnit_trace env k ln gid i st,
      (delaysOf_unitEvents env k ln gid i).1,
      (delaysOf_unitEvents env k ln gid i).2⟩
  · intro ks locs
    have h := runKeywords_delays env ks locs 0 initState
    constructor
    · rw [runScrapeState, h.1]
      simp [initState, delaysOf]
    · intro d hd
      rcases h.2 d hd with hmem | ⟨j, hj⟩
      · simp [initState, delaysOf] at hmem
      · rw [hj]
        exact randomBetween_bounds (hr j).1 (hr j).2

/-- Claim C7, witness: a singleton run with `Math.random() = 0`
ends its only unit with a 2000 ms delay. -/
theorem unconditional_interunit_delay_witness :
    delaysOf (unitEvents sampleRunEnv "X" "A" 1 0) = [2000] ∧
    (delaysOf (runScrapeState sampleRunEnv ["X"] [("A", 1)]).trace).length =
      1 * 1 := by
  have h := unconditional_interunit_delay sampleRunEnv
    (fun i => by constructor <;> norm_num [sampleRunEnv])
  refine ⟨((h.1 "X" "A" 1 0 initState).2.1).trans (by norm_num [sampleRunEnv, randomBetween]),
    (h.2 ["X"] [("A", 1)]).1⟩

/-! ## Claim C2 -/

/-- One iteration preserves `totalInserted ≤ totalScraped` whenever
the ingestion service never reports more inserted records than the
batch it was sent: `totalScraped` grows by the batch size before the
batch is ingested, and `totalInserted` grows by at most that size. -/
theorem stepUnit_totals_inv (env : RunEnv) (k ln : String) (gid : Int)
    (i : Nat) (st : OrchState)
    (hing : ∀ jobs n, env.ingest i jobs = .ok n → n ≤ jobs.length)
    (h : st.totalInserted ≤ st.totalScraped) :
    (stepUnit env k ln gid i st).totalInserted ≤
      (stepUnit env k ln gid i st).totalScraped := by
  have hphase : ∀ st' : OrchState, st'.totalInserted ≤ st'.totalScraped →
      (scrapePhase env k ln gid i st').totalInserted ≤
        (scrapePhase env k ln gid i st').totalScraped := by
    intro st' h'
    simp only [scrapePhase, pushEvents, pushError]
    cases hr : (scrapeLocation (env.unitEnv i) k ln gid).2 with
    | ok jobs =>
      simp only
      split
      · cases hi : env.ingest i jobs with
        | ok n =>
          simp only
          exact Nat.add_le_add h' (hing jobs n hi)
        | error m =>
          simp only [pushError]
          exact Nat.le_trans h' (Nat.le_add_right _ _)
      · exact Nat.le_trans h' (Nat.le_add_right _ _)
    | error serr =>
      have he := handleCaught_effect env i k ln serr.message (some serr.url)
        (some serr.browserState)
        ({st' with
          trace := st'.trace ++ (scrapeLocation (env.unitEnv i) k ln gid).1,
          screenshots := st'.screenshots ++
            shotNames (scrapeLocation (env.unitEnv i) k ln gid).1})
      rw [(he).2.2.2.1, (he).2.2.1]
      exact h'
  simp only [stepUnit, pushEvents]
  split
  · exact hphase _ h
  · split
    · exact hphase _ h
    · have he := handleCaught_effect env i k ln (env.recoverPreMsg i) none none
        ({st with trace := st.trace ++ [OEvent.attempt k ln] ++
          [OEvent.recoverAttempt] ++ [OEvent.recoverFailed]})
      rw [(he).2.2.2.1, (he).2.2.1]
      exact h

/-- The invariant propagates through the inner loop. -/
theorem runLocations_totals_inv (env : RunEnv) (k : String)
    (hing : ∀ i jobs n, env.ingest i jobs = .ok n → n ≤ jobs.length) :
    ∀ (locs : List (String × Int)) (i : Nat) (st : OrchState),
      st.totalInserted ≤ st.totalScraped →
      (runLocations env k locs i st).1.totalInserted ≤
        (runLocations env k locs i st).1.totalScraped := by
  intro locs
  induction locs with
  | nil => intro i st h; exact h
  | cons hd tl ih =>
    intro i st h
    exact ih _ _ (stepUnit_totals_inv env k hd.1 hd.2 i st (hing i) h)

/-- The invariant propagates through the outer loop: it holds at
every point of the run that extends a state already satisfying it. -/
theorem runKeywords_totals_inv (env : RunEnv)
    (hing : ∀ i jobs n, env.ingest i jobs = .ok n → n ≤ jobs.length) :
    ∀ (ks : List String) (locs : List (String × Int)) (i : Nat)
      (st : OrchState),
      st.totalInserted ≤ st.totalScraped →
      (runKeywords env ks locs i st).1.totalInserted ≤
        (runKeywords env ks locs i st).1.totalScraped := by
  intro ks
  induction ks with
  | nil => intro locs i st h; exact h
  | cons k ks ih =>
    intro locs i st h
    exact ih _ _ _ (runLocations_totals_inv env k hing locs i st h)

/-- Claim C2: whenever the ingestion service never reports more
inserted records than the batch it was sent, `totalScraped ≥
totalInserted` holds at every point of the run — the loops preserve
it from any state satisfying it — and in the final `RunSummary`. -/
theorem extracted_ge_ingested (env : RunEnv)
    (hing : ∀ i jobs n, env.ingest i jobs = .ok n → n ≤ jobs.length) :
    (∀ (ks : List String) (locs : List (String × Int)) (i : Nat)
      (st : OrchState),
      st.totalInserted ≤ st.totalScraped →
      (runKeywords env ks locs i st).1.totalInserted ≤
        (runKeywords env ks locs i st).1.totalScraped) ∧
    (∀ (ks : List String) (locs : List (String × Int))
      (summary : RunSummary),
      runBulkScrape env ks locs = .ok summary →
      summary.inserted ≤ summary.total_scraped) := by
  refine ⟨runKeywords_totals_inv env hing, ?_⟩
  intro ks locs summary h
  rw [runBulkScrape] at h
  by_cases h1 : ks = []
  · rw [if_pos h1] at h; cases h
  · rw [if_neg h1] at h
    by_cases h2 : locs = []
    · rw [if_pos h2] at h; cases h
    · rw [if_neg h2] at h
      by_cases h3 : ¬ env.launchOk = true
      · rw [if_pos h3] at h; cases h
      · rw [if_neg h3] at h
        have hs := runKeywords_totals_inv env hing ks locs 0 initState
          (by simp [initState])
        rw [← Option.some.inj (congrArg (fun x => x.toOption) h)]
        exact hs

/-- Claim C2, witness: a one-unit run whose ingestion inserts
nothing. -/
theorem extracted_ge_ingested_witness :
    (runKeywords sampleRunEnv ["X"] [("A", 1)] 0 initState).1.totalInserted ≤
      (runKeywords sampleRunEnv ["X"] [("A", 1)] 0 initState).1.totalScraped := by
  have h := extracted_ge_ingested sampleRunEnv
    (fun i jobs n hn => by
      cases hn
      exact Nat.zero_le _)
  exact h.1 ["X"] [("A", 1)] 0 initState (by simp [initState])

/-! ## Claim C5 -/

/-- Attempt markers are invisible to the recovery count. -/
theorem recoverAttemptsOf_cons_attempt (k ln : String) (l : List OEvent) :
    recoverAttemptsOf (OEvent.attempt k ln :: l) = recoverAttemptsOf l := by
  simp [recoverAttemptsOf]

/-- A single delay contributes no recovery attempt. -/
theorem recoverAttemptsOf_singleton_delay (q : ℚ) :
    recoverAttemptsOf [OEvent.delay q] = 0 := rfl

/-- A failed unit's effect on the error list and the totals. -/
theorem scrapePhase_error_effect (env : RunEnv) (k ln : String) (gid : Int)
    (i : Nat) (st : OrchState) (serr : ScrapeErr)
    (hr : (scrapeLocation (env.unitEnv i) k ln gid).2 = .error serr) :
    (scrapePhase env k ln gid i st).errors = st.errors ++
      [⟨k, ln, none, serr.message,
        some (if serr.url = "" then "not generated" else serr.url)⟩] ∧
    (scrapePhase env k ln gid i st).totalScraped = st.totalScraped ∧
    (scrapePhase env k ln gid i st).totalInserted = st.totalInserted := by
  simp only [scrapePhase, pushEvents]
  simp only [hr]
  have he := handleCaught_effect env i k ln serr.message (some serr.url)
    (some serr.browserState)
    ({st with
      trace := st.trace ++ (scrapeLocation (env.unitEnv i) k ln gid).1,
      screenshots := st.screenshots ++
        shotNames (scrapeLocation (env.unitEnv i) k ln gid).1})
  exact ⟨he.2.1, he.2.2.1, he.2.2.2.1⟩

/-- A failed unit's full effect on the orchestrator state: the error
record, the recovery count, and the unchanged totals. -/
theorem stepUnit_error_effect (env : RunEnv) (k ln : String) (gid : Int)
    (i : Nat) (st : OrchState) (evs : List OEvent) (serr : ScrapeErr)
    (hpre : env.connectedPre i = true)
    (hs : scrapeLocation (env.unitEnv i) k ln gid = (evs, .error serr)) :
    ((stepUnit env k ln gid i st).errors = st.errors ++
      [⟨k, ln, none, serr.message,
        some (if serr.url = "" then "not generated" else serr.url)⟩]) ∧
    (recoverAttemptsOf (stepUnit env k ln gid i st).trace =
      recoverAttemptsOf st.trace +
        (if recoveryIndicated (some serr.browserState) serr.message then 1
         else 0)) ∧
    ((stepUnit env k ln gid i st).totalScraped = st.totalScraped ∧
     (stepUnit env k ln gid i st).totalInserted = st.totalInserted) := by
  have hr2 : (scrapeLocation (env.unitEnv i) k ln gid).2 = .error serr := by
    rw [hs]
  have heff := scrapePhase_error_effect env k ln gid i
    (pushEvents st [OEvent.attempt k ln]) serr hr2
  have hstep : stepUnit env k ln gid i st =
      pushEvents (scrapePhase env k ln gid i
        (pushEvents st [OEvent.attempt k ln]))
        [OEvent.delay (randomBetween 2000 5000 (env.random i))] := by
    rw [stepUnit, if_pos hpre]
  refine ⟨?_, ?_, ?_, ?_⟩
  · rw [hstep]
    simpa [pushEvents] using heff.1
  · rw [stepUnit_trace, recoverAttemptsOf_append, unitEvents, if_pos hpre,
      recoverAttemptsOf_cons_attempt, recoverAttemptsOf_append,
      recoverAttemptsOf_singleton_delay]
    have hph : recoverAttemptsOf (phaseEvents env k ln gid i) =
        if recoveryIndicated (some serr.browserState) serr.message then 1
        else 0 := by
      rw [phaseEvents]
      simp only [hs]
      rw [recoverAttemptsOf_append]
      have h0 : recoverAttemptsOf evs = 0 := by
        have := recoverAttemptsOf_scrapeLocation (env.unitEnv i) k ln gid
        rw [hs] at this
        exact this
      rw [h0, recoverAttemptsOf_caughtEvents]
      simp
    rw [hph]
    simp
  · rw [hstep]
    simpa [pushEvents] using heff.2.1
  · rw [hstep]
    simpa [pushEvents] using heff.2.2

/-- Claim C5: when a unit's scrape raises, the orchestrator appends
exactly one `ErrorRecord`, and attempts `recover()` exactly when the
failure indicates a disconnected session (`browserState ===
'disconnected'`) or a terminated process (`/Target closed|detached
Frame/i` on the message); the failure changes no totals — and even
when `recover()` itself fails the step only logs it (no further
error record, no raise) and the loop proceeds to the next unit. -/
theorem error_recovery_policy (env : RunEnv) (k ln : String) (gid : Int)
    (i : Nat) (st : OrchState) (evs : List OEvent) (serr : ScrapeErr)
    (hpre : env.connectedPre i = true)
    (hs : scrapeLocation (env.unitEnv i) k ln gid = (evs, .error serr)) :
    ((stepUnit env k ln gid i st).errors = st.errors ++
      [⟨k, ln, none, serr.message,
        some (if serr.url = "" then "not generated" else serr.url)⟩]) ∧
    (recoverAttemptsOf (stepUnit env k ln gid i st).trace =
      recoverAttemptsOf st.trace +
        (if recoveryIndicated (some serr.browserState) serr.message then 1
         else 0)) ∧
    ((stepUnit env k ln gid i st).totalScraped = st.totalScraped ∧
     (stepUnit env k ln gid i st).totalInserted = st.totalInserted) ∧
    (∀ rest, runLocations env k ((ln, gid) :: rest) i st =
      runLocations env k rest (i + 1) (stepUnit env k ln gid i st)) := by
  have h := stepUnit_error_effect env k ln gid i st evs serr hpre hs
  exact ⟨h.1, h.2.1, h.2.2, fun rest => rfl⟩

/-- Claim C5, witness: a unit that fails with a disconnected browser
is recorded once and triggers exactly one recovery attempt. -/
theorem error_recovery_policy_witness :
    (stepUnit discRunEnv "X" "A" 1 0 initState).errors =
      [⟨"X", "A", none, "Browser disconnected", some "not generated"⟩] ∧
    recoverAttemptsOf (stepUnit discRunEnv "X" "A" 1 0 initState).trace = 1 := by
  have h := error_recovery_policy discRunEnv "X" "A" 1 0 initState []
    ⟨"Browser disconnected", "", "open", "disconnected"⟩ (by decide) (by rfl)
  exact ⟨h.1.trans (by decide), (h.2.1).trans (by decide)⟩

/-! ## Claim C4 -/

/-- A unit whose page loads and validates but counts zero job cards:
it captures the `no-results` snapshot, waits the extra
`zeroResultsExtra` 3 s, and then *throws*
`Error('No job listings found on page')`, which the in-function
catch decorates (with a best-effort `ERROR` screenshot, both
liveness states alive here). -/
theorem scrapeLocation_zero_cards (e : UnitEnv) (k ln : String) (gid : Int)
    (h0 : e.connected0 = true) (hg : e.gotoErr = none)
    (hpc : e.pageClosedAfterNav = false) (hcn : e.connectedAfterNav = true)
    (hurl : containsSub "linkedin.com/jobs/search".toList
      e.currentUrl.toList = true)
    (hjl : e.jobListErr = none) (hcount : e.jobCardCount = 0)
    (hpcc : e.pageClosedAtCatch = false) (hcc : e.connectedAtCatch = true) :
    scrapeLocation e k ln gid =
      ([OEvent.screenshot "IMMEDIATE" e.shotImmediateOk, OEvent.waitEv 2000,
        OEvent.screenshot "initial" e.shotInitialOk] ++
        (if e.modalShown then [OEvent.waitEv 1000] else []) ++
        [OEvent.waitEv 3000,
         OEvent.screenshot "no-results" e.shotNoResultsOk, OEvent.waitEv 3000,
         OEvent.screenshot "ERROR" e.shotErrorOk],
       .error ⟨"No job listings found on page", buildLinkedInUrl k gid,
         "open", "connected"⟩) := by
  rw [scrapeLocation, if_neg (by simp [h0])]
  simp only [hg]
  rw [if_neg (by simp [hpc]), if_neg (by simp [hcn]),
    if_neg (by simp; exact hurl)]
  simp only [hjl]
  rw [if_pos hcount]
  simp only [prependEvents, scrapeFail, hpcc, hcc]
  simp

/-- Claim C4 (amended): zero result items in the DOM *is* reported
only after the `no-results` diagnostic snapshot and the extra 3 s
delay, and it does *not* trigger session recovery (the browser is
still connected and the fixed message matches no disconnect
pattern) — but, contrary to the claim, it *is* raised as an
exception (`Error('No job listings found on page')`) and the
orchestrator *does* record it as a unit error like any other
failure. -/
theorem empty_result_behaviour (env : RunEnv) (k ln : String) (gid : Int)
    (i : Nat) (st : OrchState)
    (h0 : (env.unitEnv i).connected0 = true)
    (hg : (env.unitEnv i).gotoErr = none)
    (hpc : (env.unitEnv i).pageClosedAfterNav = false)
    (hcn : (env.unitEnv i).connectedAfterNav = true)
    (hurl : containsSub "linkedin.com/jobs/search".toList
      (env.unitEnv i).currentUrl.toList = true)
    (hjl : (env.unitEnv i).jobListErr = none)
    (hcount : (env.unitEnv i).jobCardCount = 0)
    (hpcc : (env.unitEnv i).pageClosedAtCatch = false)
    (hcc : (env.unitEnv i).connectedAtCatch = true)
    (hpre : env.connectedPre i = true) :
    (scrapeLocation (env.unitEnv i) k ln gid).2 =
      .error ⟨"No job listings found on page", buildLinkedInUrl k gid,
        "open", "connected"⟩ ∧
    (scrapeLocation (env.unitEnv i) k ln gid).1 =
      [OEvent.screenshot "IMMEDIATE" (env.unitEnv i).shotImmediateOk,
       OEvent.waitEv 2000,
       OEvent.screenshot "initial" (env.unitEnv i).shotInitialOk] ++
      (if (env.unitEnv i).modalShown then [OEvent.waitEv 1000] else []) ++
      [OEvent.waitEv 3000,
       OEvent.screenshot "no-results" (env.unitEnv i).shotNoResultsOk,
       OEvent.waitEv 3000,
       OEvent.screenshot "ERROR" (env.unitEnv i).shotErrorOk] ∧
    (stepUnit env k ln gid i st).errors = st.errors ++
      [⟨k, ln, none, "No job listings found on page",
        some (if buildLinkedInUrl k gid = "" then "not generated"
              else buildLinkedInUrl k gid)⟩] ∧
    recoverAttemptsOf (stepUnit env k ln gid i st).trace =
      recoverAttemptsOf st.trace := by
  have hsl := scrapeLocation_zero_cards (env.unitEnv i) k ln gid h0 hg hpc
    hcn hurl hjl hcount hpcc hcc
  have heff := stepUnit_error_effect env k ln gid i st _ _ hpre hsl
  refine ⟨by rw [hsl], by rw [hsl], heff.1, ?_⟩
  rw [heff.2.1]
  have hni : recoveryIndicated (some "connected")
      "No job listings found on page" = false := by decide
  rw [hni]
  simp

/-- Claim C4, counterexample: with zero job cards the outcome *is* a
raised error, and the orchestrator *does* record it as a unit
failure — refuting "is not raised as an exception, is not recorded
as a unit failure". -/
theorem empty_result_claim_counterexample :
    (scrapeLocation sampleUnitEnv "X" "A" 1).2 =
      .error ⟨"No job listings found on page", buildLinkedInUrl "X" 1,
        "open", "connected"⟩ ∧
    (stepUnit sampleRunEnv "X" "A" 1 0 initState).errors.length = 1 := by
  exact ⟨by rfl, by decide⟩

/-- Claim C4, witness for the amended behaviour at the sample world. -/
theorem empty_result_behaviour_witness :
    (scrapeLocation sampleUnitEnv "X" "A" 1).1 =
      [OEvent.screenshot "IMMEDIATE" true, OEvent.waitEv 2000,
       OEvent.screenshot "initial" true, OEvent.waitEv 3000,
       OEvent.screenshot "no-results" true, OEvent.waitEv 3000,
       OEvent.screenshot "ERROR" true] ∧
    recoverAttemptsOf (stepUnit sampleRunEnv "X" "A" 1 0 initState).trace =
      recoverAttemptsOf initState.trace := by
  have h := empty_result_behaviour sampleRunEnv "X" "A" 1 0 initState
    (by decide) (by decide) (by decide) (by decide) (by decide) (by decide)
    (by decide) (by decide) (by decide) (by decide)
  exact ⟨h.2.1.trans (by decide), h.2.2.2⟩

/-! ## Claim C8 -/

/-- Every successful unit returns exactly the metadata-stamped,
URL-transformed extraction. -/
theorem scrapeLocation_ok_shape (e : UnitEnv) (k ln : String) (gid : Int)
    (stamped : List StampedJob)
    (h : (scrapeLocation e k ln gid).2 = .ok stamped) :
    stamped = addMetadata e.clock k ln gid
      (e.extracted.map (fun j =>
        if j.url ≠ "" then {j with url := transformJobUrl j.url} else j)) := by
  rw [scrapeLocation] at h
  repeat' split at h
  all_goals simp [prependEvents, scrapeFail] at h
  all_goals (
    have hfun : (fun j : RawJob =>
        if j.url ≠ "" then {j with url := transformJobUrl j.url} else j) =
        (fun j : RawJob =>
          if j.url = "" then j else {j with url := transformJobUrl j.url}) := by
      funext j
      by_cases hc : j.url = "" <;> simp [hc]
    rw [hfun]
    exact h.symm)

/-- Claim C8 (amended): all records of a unit share the same
`keyword`, `locationName`, `geoId` and `timeWindow` fields, but
`scraped_at` is re-computed per record — the `j`-th record carries
the `j`-th `new Date()` reading — so the stamps of one unit are all
equal only when the clock readings coincide. -/
theorem metadata_stamp_behaviour (e : UnitEnv) (k ln : String) (gid : Int)
    (stamped : List StampedJob)
    (h : (scrapeLocation e k ln gid).2 = .ok stamped) :
    (∀ (j : Nat) (hj : j < stamped.length),
      (stamped.get ⟨j, hj⟩).scrape_metadata =
        ⟨k, ln, gid, timeFilterConfig, e.clock j⟩) ∧
    ((∀ a b : Nat, e.clock a = e.clock b) →
      ∀ r ∈ stamped, ∀ q ∈ stamped,
        r.scrape_metadata = q.scrape_metadata) := by
  have hshape := scrapeLocation_ok_shape e k ln gid stamped h
  subst hshape
  constructor
  · intro j hj
    simp [addMetadata, List.get_eq_getElem, List.getElem_mapIdx]
  · intro hconst r hr q hq
    obtain ⟨ir, hir, hre⟩ := List.mem_iff_getElem.mp hr
    obtain ⟨iq, hiq, hqe⟩ := List.mem_iff_getElem.mp hq
    rw [← hre, ← hqe]
    simp only [addMetadata, List.getElem_mapIdx]
    rw [hconst ir iq]

/-- Claim C8, counterexample: in a unit whose clock advances between
the two `new Date()` calls of the stamping `map`, the two records of
the same unit carry *different* stamps — refuting "scrapedAt computed
exactly once per unit and shared by every record". -/
theorem metadata_stamp_counterexample :
    (scrapeLocation twoJobUnitEnv "X" "A" 1).2 =
      .ok [⟨sampleJob "1", ⟨"X", "A", 1, "r7200",
              "2024-01-01T00:00:00.000Z"⟩⟩,
           ⟨sampleJob "2", ⟨"X", "A", 1, "r7200",
              "2024-01-01T00:00:00.001Z"⟩⟩] ∧
    (⟨"X", "A", 1, "r7200", "2024-01-01T00:00:00.000Z"⟩ : ScrapeMeta) ≠
      ⟨"X", "A", 1, "r7200", "2024-01-01T00:00:00.001Z"⟩ := by
  exact ⟨by rfl, by decide⟩

/-- Claim C8, witness: the two stamps of the sample unit are the
first two clock readings. -/
theorem metadata_stamp_behaviour_witness :
    (([⟨sampleJob "1", ⟨"X", "A", 1, "r7200",
          "2024-01-01T00:00:00.000Z"⟩⟩,
       ⟨sampleJob "2", ⟨"X", "A", 1, "r7200",
          "2024-01-01T00:00:00.001Z"⟩⟩] : List StampedJob).get
        ⟨0, by decide⟩).scrape_metadata =
      ⟨"X", "A", 1, timeFilterConfig, twoJobUnitEnv.clock 0⟩ ∧
    (([⟨sampleJob "1", ⟨"X", "A", 1, "r7200",
          "2024-01-01T00:00:00.000Z"⟩⟩,
       ⟨sampleJob "2", ⟨"X", "A", 1, "r7200",
          "2024-01-01T00:00:00.001Z"⟩⟩] : List StampedJob).get
        ⟨1, by decide⟩).scrape_metadata =
      ⟨"X", "A", 1, timeFilterConfig, twoJobUnitEnv.clock 1⟩ := by
  have h := metadata_stamp_behaviour twoJobUnitEnv "X" "A" 1
    [⟨sampleJob "1", ⟨"X", "A", 1, "r7200", "2024-01-01T00:00:00.000Z"⟩⟩,
     ⟨sampleJob "2", ⟨"X", "A", 1, "r7200", "2024-01-01T00:00:00.001Z"⟩⟩]
    (by rfl)
  exact ⟨h.1 0 (by decide), h.1 1 (by decide)⟩

/-! ## Claim C6 -/

/-- Claim C6, failing run.  In the part_000 loop the memory guard
executes `break`, annotated `// Exit keyword loop` and logged as
"stopping scrape", but `break` leaves only the inner *location*
loop: with keywords `["a", "b"]`, one location, and memory samples
500 MB then 100 MB, the guard fires before keyword `"a"`'s unit, yet
keyword `"b"`'s unit is still attempted (and the run still returns
its partial summary rather than crashing).  The specification — and
the code's own comment — say no further unit of any remaining term
should be issued. -/
theorem memory_guard_breaks_inner_loop_only :
    (p0RunState p0SpikeEnv ["a", "b"] [("L", 1)]).trace =
      [P0Event.budgetStop 500, P0Event.attempt "b" "L",
       P0Event.delay 5000] ∧
    (p0RunState p0SpikeEnv ["a", "b"] [("L", 1)]).totalScraped = 0 := by
  exact ⟨by rfl, by rfl⟩

end PuppeteerScraper
